import Mathlib

/-!
# Verification of the dq pipeline query engine

A shallow embedding of the dq table-query engine (lexer/parser/evaluator/
operation executor written in Go) together with proofs about its operations.

Modelling conventions:
* Go `int64` is modelled as `Int` (no claim below exercises 64-bit overflow).
* Go `float64` is modelled as `Rat`: every numeric value appearing in the
  verified claims is exactly representable, and no claim depends on rounding
  of binary floating point.
* Go's `(value, ok)` returns become `Option`, `(value, error)` returns become
  `Except EvalErr`.  A Go runtime panic (e.g. an out-of-range slice) is the
  distinguished error `EvalErr.goPanic`, which ordinary error handling never
  produces.
* Go maps used only for membership / first-index lookup are modelled as
  association lists, which preserves the observable behaviour (first-seen
  order is kept explicitly by the Go code itself).
* `table.Row` is a struct holding only a `[]Value`; it is flattened to
  `List Value`.
-/

namespace DQ

/-- The value kinds of `table.Value` (field `Type`). -/
inductive Value where
  | null : Value
  | int (i : Int) : Value
  | float (f : Rat) : Value
  | str (s : String) : Value
  | bool (b : Bool) : Value
  | nestedT (cols : List String) (rows : List (List Value)) : Value

instance : Inhabited Value := ⟨.null⟩

/-- `Value.IsNull`. -/
def Value.isNull : Value → Bool
  | .null => true
  | _ => false

/-- `v.Type == table.TypeInt`. -/
def Value.isInt : Value → Bool
  | .int _ => true
  | _ => false

/-- `v.Type == table.TypeFloat`. -/
def Value.isFloat : Value → Bool
  | .float _ => true
  | _ => false

/-- `v.Type == table.TypeString`. -/
def Value.isStr : Value → Bool
  | .str _ => true
  | _ => false

/-- Go struct-field access `v.Int` (zero value when the tag is different,
exactly as in Go where `Value` is a struct with all fields present). -/
def Value.intVal : Value → Int
  | .int i => i
  | _ => 0

/-- Go struct-field access `v.Str`. -/
def Value.strVal : Value → String
  | .str s => s
  | _ => ""

/-- `Value.AsFloat`: succeeds only for Int/Float. -/
def Value.asFloat : Value → Option Rat
  | .int i => some (i : Rat)
  | .float f => some f
  | _ => none

/-- `Value.AsBool`: succeeds for Bool and for Null, where null coerces to
`false` (this is what the Go switch does: `case TypeNull: return false, true`). -/
def Value.asBool : Value → Option Bool
  | .bool b => some b
  | .null => some false
  | _ => none

/-- Rendering of a `Rat`, standing in for Go's `fmt.Sprintf("%g", f)` on the
float64 it models.  No verified claim depends on the digits of a float
rendering. -/
def ratRender (q : Rat) : String := toString q

/-- `Table.String`, applied to column names and already-rendered cell
strings.  Go writes, per row, `col:val` pairs joined by `", "`, indexing
`t.Columns[j]` for each value index `j`; `zip` reproduces this for all
width-consistent tables (Go panics on rows wider than the column list).
The cell strings are pre-rendered by the caller so that `Value.asString`'s
recursion stays visible to the termination checker; the assembled string is
identical to Go's. -/
def renderTable (cols : List String) (rendered : List (List String)) : String :=
  match rendered with
  | [] => "[" ++ String.intercalate ", " cols ++ "] (0 rows)"
  | _ => "[ " ++ String.intercalate ", "
      (rendered.map (fun r => "\x7b" ++
        String.intercalate ", " ((cols.zip r).map (fun p => p.1 ++ ":" ++ p.2)) ++ "\x7d")) ++
      " ]"

/-- The five scalar arms of the `Value.AsString` switch (split out of
`Value.asString` so that the top-level function is non-recursive; the
rendered strings are exactly Go's). -/
def scalarString : Value → Option String
  | .null => some "null"
  | .int i => some (toString i)
  | .float q => some (ratRender q)
  | .str s => some s
  | .bool b => some (if b then "true" else "false")
  | .nestedT _ _ => none

/-- The nested-table arm of `Value.AsString` (`Table.String` recursing into
cells via `AsString`). -/
def nestedString (cols : List String) (rows : List (List Value)) : String :=
  renderTable cols (rows.attach.map (fun r => r.1.attach.map (fun v =>
    match h : v.1 with
    | .nestedT c2 r2 => nestedString c2 r2
    | w => (scalarString w).getD "")))
termination_by sizeOf rows
decreasing_by
  · have h1 : sizeOf r.1 < sizeOf rows := List.sizeOf_lt_of_mem r.2
    have h2 : sizeOf v.1 < sizeOf r.1 := List.sizeOf_lt_of_mem v.2
    rw [h] at h2
    simp only [Value.nestedT.sizeOf_spec] at h2
    omega

/-- `Value.AsString`: total over all kinds; nested tables stringify through
`Table.String`. -/
def Value.asString (v : Value) : String :=
  match v with
  | .nestedT cols rows => nestedString cols rows
  | w => (scalarString w).getD ""

/-- `table.Table`: named columns plus rows. -/
structure Table where
  columns : List String
  rows : List (List Value)

/-- `Table.ColIndex`: index of the first column with the given name
(Go returns `-1`, modelled as `none`). -/
def Table.colIndex (t : Table) (name : String) : Option Nat :=
  t.columns.findIdx? (fun c => c == name)

/-- The row-width invariant of the spec: every row's value count equals the
table's column count. -/
def Table.Wf (t : Table) : Prop :=
  ∀ r ∈ t.rows, r.length = t.columns.length

instance (t : Table) : Decidable t.Wf :=
  inferInstanceAs (Decidable (∀ r ∈ t.rows, r.length = t.columns.length))

/-- Go slice indexing `row.Values[i]`.  Total here; every verified use is
in-bounds under `Table.Wf` and a valid column index. -/
def getCell (r : List Value) (i : Nat) : Value := r.getD i Value.null

/-- Errors.  `err` models a Go `error` return; `goPanic` models a Go runtime
panic (the program crashing), which no `error`-path ever produces. -/
inductive EvalErr where
  | err (msg : String)
  | goPanic (msg : String)

/-- `fmt.Errorf("prefix: %w", err)`: message wrapping.  Panics are not
wrapped (they propagate past error returns). -/
def EvalErr.wrap (p : String) : EvalErr → EvalErr
  | .err m => .err (p ++ m)
  | .goPanic m => .goPanic m

/-! ## Expression AST (`package ast`)

The Go AST is an interface with one struct per node; the natural embedding
is a closed sum.  `LiteralExpr` is a struct carrying a `Kind` string plus
one field per payload type, reproduced verbatim. -/

/-- `ast.Expr`. -/
inductive Expr where
  | literal (kind : String) (intV : Int) (floatV : Rat) (strV : String) (boolV : Bool)
  | column (name : String)
  | binary (op : String) (left right : Expr)
  | unary (op : String) (operand : Expr)
  | funcCall (name : String) (args : List Expr)
  | isNullE (operand : Expr) (negated : Bool)

/-- Shorthand for an int `LiteralExpr` (unused payload fields are Go zero
values, as in a Go composite literal). -/
def Expr.litInt (i : Int) : Expr := .literal "int" i 0 "" false

/-- Shorthand for a string `LiteralExpr`. -/
def Expr.litStr (s : String) : Expr := .literal "string" 0 0 s false

/-- Shorthand for a float `LiteralExpr`. -/
def Expr.litFloat (q : Rat) : Expr := .literal "float" 0 q "" false

/-- Shorthand for a bool `LiteralExpr`. -/
def Expr.litBool (b : Bool) : Expr := .literal "bool" 0 0 "" b

/-- Shorthand for the null `LiteralExpr`. -/
def Expr.litNull : Expr := .literal "null" 0 0 "" false

/-- `ast.Assignment`. -/
structure Assignment where
  column : String
  expr : Expr

/-! ## Expression evaluator (`engine/eval.go`) -/

/-- `engine.EvalContext`. -/
structure EvalContext where
  table : Table
  row : List Value

/-- `engine.evalLiteral`. -/
def evalLiteral (kind : String) (intV : Int) (floatV : Rat) (strV : String)
    (boolV : Bool) : Value :=
  if kind = "int" then .int intV
  else if kind = "float" then .float floatV
  else if kind = "string" then .str strV
  else if kind = "bool" then .bool boolV
  else if kind = "null" then .null
  else .null

/-- `engine.evalColumn`. -/
def evalColumn (name : String) (ctx : EvalContext) : Except EvalErr Value :=
  match ctx.table.colIndex name with
  | none => .error (.err ("column " ++ name ++ " not found"))
  | some idx => .ok (getCell ctx.row idx)

/-- `strings.Compare`, via the lexicographic order on strings (byte order and
code-point order agree on the ASCII data the claims exercise). -/
def stringsCompare (a b : String) : Int :=
  if a < b then -1 else if b < a then 1 else 0

/-- The string-concatenation special case at the top of `engine.evalArith`:
`op == "+" && left.Type == TypeString && right.Type == TypeString`. -/
def strConcat? : String → Value → Value → Option String
  | "+", .str ls, .str rs => some (ls ++ rs)
  | _, _, _ => none

/-- `result == math.Trunc(result)` for the rational modelling the float. -/
def ratIsWhole (q : Rat) : Bool := q.den == 1

/-- `engine.evalArith`.  Both Int: Go's `left.Int % right.Int == 0` test and
exact quotient use truncated division; on the exact-division path every
division convention agrees, and the `%`-zero test agrees with divisibility,
so Lean's `Int` operators are a faithful model. -/
def evalArith (op : String) (left right : Value) : Except EvalErr Value :=
  match strConcat? op left right with
  | some s => .ok (.str s)
  | none =>
    match left.asFloat, right.asFloat with
    | some lf, some rf =>
      if op = "/" ∧ rf = 0 then .ok .null
      else
        let result : Rat :=
          if op = "+" then lf + rf
          else if op = "-" then lf - rf
          else if op = "*" then lf * rf
          else if op = "/" then lf / rf
          else 0
        if left.isInt ∧ right.isInt ∧ ratIsWhole result ∧ op ≠ "/" then
          .ok (.int result.num)
        else if left.isInt ∧ right.isInt ∧ op = "/" ∧ left.intVal % right.intVal = 0 then
          .ok (.int (left.intVal / right.intVal))
        else .ok (.float result)
    | _, _ =>
      .error (.err ("cannot perform " ++ op ++ " on " ++ left.asString ++
        " and " ++ right.asString))

/-- `engine.cmpResult`. -/
def cmpResult (op : String) (cmp : Int) : Bool :=
  if op = "==" then cmp == 0
  else if op = "!=" then cmp != 0
  else if op = "<" then decide (cmp < 0)
  else if op = ">" then decide (cmp > 0)
  else if op = "<=" then decide (cmp ≤ 0)
  else if op = ">=" then decide (cmp ≥ 0)
  else false

/-- `engine.evalComparison`. -/
def evalComparison (op : String) (left right : Value) : Except EvalErr Value :=
  if left.isNull && right.isNull then
    if op = "==" then .ok (.bool true)
    else if op = "!=" then .ok (.bool false)
    else .ok .null
  else if left.isNull || right.isNull then
    if op = "==" then .ok (.bool false)
    else if op = "!=" then .ok (.bool true)
    else .ok .null
  else
    match left, right with
    | .str ls, .str rs => .ok (.bool (cmpResult op (stringsCompare ls rs)))
    | .bool lb, .bool rb =>
      if op = "==" then .ok (.bool (lb == rb))
      else if op = "!=" then .ok (.bool (lb != rb))
      else .error (.err "cannot use ordering on booleans")
    | l, r =>
      match l.asFloat, r.asFloat with
      | some lf, some rf =>
        let diff := lf - rf
        let cmp : Int := if diff < 0 then -1 else if diff > 0 then 1 else 0
        .ok (.bool (cmpResult op cmp))
      | _, _ =>
        .error (.err ("cannot compare " ++ l.asString ++ " with " ++ r.asString))

/-- `engine.evalLogicalAnd`. -/
def evalLogicalAnd (left right : Value) : Except EvalErr Value :=
  match left.asBool, right.asBool with
  | some lb, some rb => .ok (.bool (lb && rb))
  | _, _ => .error (.err "'and' requires boolean operands")

/-- `engine.evalLogicalOr`. -/
def evalLogicalOr (left right : Value) : Except EvalErr Value :=
  match left.asBool, right.asBool with
  | some lb, some rb => .ok (.bool (lb || rb))
  | _, _ => .error (.err "'or' requires boolean operands")

/-- The operator dispatch of `engine.evalBinary`, after both operands have
been evaluated (Go evaluates left then right before switching on the
operator). -/
def evalBinaryOp (op : String) (left right : Value) : Except EvalErr Value :=
  if op = "+" ∨ op = "-" ∨ op = "*" ∨ op = "/" then
    if left.isNull || right.isNull then .ok .null
    else evalArith op left right
  else if op = "==" ∨ op = "!=" ∨ op = "<" ∨ op = ">" ∨ op = "<=" ∨ op = ">=" then
    evalComparison op left right
  else if op = "and" then evalLogicalAnd left right
  else if op = "or" then evalLogicalOr left right
  else .error (.err ("unknown operator " ++ op))

/-- The operator dispatch of `engine.evalUnary` after evaluating the
operand. -/
def evalUnaryOp (op : String) (operand : Value) : Except EvalErr Value :=
  if op = "not" then
    match operand.asBool with
    | some b => .ok (.bool (!b))
    | none => .error (.err "'not' requires boolean operand")
  else if op = "-" then
    if operand.isNull then .ok .null
    else
      match operand with
      | .int i => .ok (.int (-i))
      | .float f => .ok (.float (-f))
      | v => .error (.err ("cannot negate " ++ v.asString))
  else .error (.err ("unknown unary operator " ++ op))

/-! ## Built-in scalar functions (`engine/functions.go`)

Each `callX` takes the evaluator for the current row context as a callback;
`Eval` instantiates it with itself at one less fuel. -/

/-- `engine.callUpper` (`strings.ToUpper` modelled by `String.toUpper`;
ASCII-identical). -/
def callUpper (evalF : Expr → Except EvalErr Value) (args : List Expr) :
    Except EvalErr Value :=
  match args with
  | [a] => do
    let v ← evalF a
    if v.isNull then .ok .null else .ok (.str v.asString.toUpper)
  | _ => .error (.err "upper() takes 1 argument")

/-- `engine.callLower`. -/
def callLower (evalF : Expr → Except EvalErr Value) (args : List Expr) :
    Except EvalErr Value :=
  match args with
  | [a] => do
    let v ← evalF a
    if v.isNull then .ok .null else .ok (.str v.asString.toLower)
  | _ => .error (.err "lower() takes 1 argument")

/-- `engine.callLen` (Go's byte length modelled by the character count;
identical on the ASCII data the claims exercise). -/
def callLen (evalF : Expr → Except EvalErr Value) (args : List Expr) :
    Except EvalErr Value :=
  match args with
  | [a] => do
    let v ← evalF a
    if v.isNull then .ok .null else .ok (.int (v.asString.length : Int))
  | _ => .error (.err "len() takes 1 argument")

/-- `engine.callTrim` (`strings.TrimSpace` modelled by `String.trim`). -/
def callTrim (evalF : Expr → Except EvalErr Value) (args : List Expr) :
    Except EvalErr Value :=
  match args with
  | [a] => do
    let v ← evalF a
    if v.isNull then .ok .null else .ok (.str v.asString.trim)
  | _ => .error (.err "trim() takes 1 argument")

/-- Go's conversion `int(f)` for a float64: truncation toward zero. -/
def ratTrunc (q : Rat) : Int := Int.tdiv q.num (q.den : Int)

/-- The Go slice expression `s[lo:hi]`: panics unless `0 ≤ lo ≤ hi ≤ len s`. -/
def goSlice (s : String) (lo hi : Int) : Except EvalErr String :=
  if 0 ≤ lo ∧ lo ≤ hi ∧ hi ≤ (s.length : Int) then
    .ok (((s.toList.drop lo.toNat).take (hi - lo).toNat).asString)
  else .error (.goPanic "slice bounds out of range")

/-- `engine.callSubstr`: clamps `start` to `[0, len s)` from below, returns
`""` once `start ≥ len s`, clamps `end` to `len s` from above, and then
slices. -/
def callSubstr (evalF : Expr → Except EvalErr Value) (args : List Expr) :
    Except EvalErr Value :=
  match args with
  | [a0, a1, a2] => do
    let sv ← evalF a0
    if sv.isNull then .ok .null
    else
      let s := sv.asString
      let startV ← evalF a1
      let lenV ← evalF a2
      match startV.asFloat with
      | none => .error (.err "substr: start must be a number")
      | some startF =>
        match lenV.asFloat with
        | none => .error (.err "substr: length must be a number")
        | some lenF =>
          let start0 := ratTrunc startF
          let length := ratTrunc lenF
          let start1 := if start0 < 0 then 0 else start0
          if start1 ≥ (s.length : Int) then .ok (.str "")
          else
            let e0 := start1 + length
            let e1 := if e0 > (s.length : Int) then (s.length : Int) else e0
            do
              let sub ← goSlice s start1 e1
              .ok (.str sub)
  | _ => .error (.err "substr() takes 3 arguments (string, start, length)")

/-- The argument loop of `engine.callCoalesce`. -/
def coalesceLoop (evalF : Expr → Except EvalErr Value) :
    List Expr → Except EvalErr Value
  | [] => .ok .null
  | a :: rest => do
    let v ← evalF a
    if v.isNull then coalesceLoop evalF rest else .ok v

/-- `engine.callCoalesce`. -/
def callCoalesce (evalF : Expr → Except EvalErr Value) (args : List Expr) :
    Except EvalErr Value :=
  if args.isEmpty then .error (.err "coalesce() requires at least 1 argument")
  else coalesceLoop evalF args

/-- `engine.callIf`: lazily evaluates only the taken branch. -/
def callIf (evalF : Expr → Except EvalErr Value) (args : List Expr) :
    Except EvalErr Value :=
  match args with
  | [c, t, e] => do
    let cond ← evalF c
    match cond.asBool with
    | none => .error (.err "if: condition must be boolean")
    | some b => if b then evalF t else evalF e
  | _ => .error (.err "if() takes 3 arguments (condition, then, else)")

/-- Models `time.Parse` (Go standard library, external to this repository)
over the engine's `dateFormats` list; only the primary `"2006-01-02"` format
is implemented, as no verified claim depends on date parsing. -/
def timeParseModel (s : String) : Option (Int × Int × Int) :=
  match s.splitOn "-" with
  | [ys, ms, ds] =>
    if ys.length = 4 ∧ 0 < ms.length ∧ ms.length ≤ 2 ∧ 0 < ds.length ∧ ds.length ≤ 2 then
      match ys.toNat?, ms.toNat?, ds.toNat? with
      | some y, some m, some d =>
        if 1 ≤ m ∧ m ≤ 12 ∧ 1 ≤ d ∧ d ≤ 31 then some ((y : Int), (m : Int), (d : Int))
        else none
      | _, _, _ => none
    else none
  | _ => none

/-- `engine.callDatePart`. -/
def callDatePart (evalF : Expr → Except EvalErr Value) (args : List Expr)
    (part : String) : Except EvalErr Value :=
  match args with
  | [a] => do
    let v ← evalF a
    if v.isNull then .ok .null
    else
      match timeParseModel v.asString with
      | none => .error (.err (part ++ "(): cannot parse " ++ v.asString ++ " as a date"))
      | some (y, m, d) =>
        if part = "year" then .ok (.int y)
        else if part = "month" then .ok (.int m)
        else if part = "day" then .ok (.int d)
        else .ok .null
  | _ => .error (.err (part ++ "() takes 1 argument"))

/-- `engine.evalFunc`: the name dispatch. -/
def evalFuncDispatch (evalF : Expr → Except EvalErr Value) (name : String)
    (args : List Expr) : Except EvalErr Value :=
  if name = "upper" then callUpper evalF args
  else if name = "lower" then callLower evalF args
  else if name = "len" then callLen evalF args
  else if name = "substr" then callSubstr evalF args
  else if name = "trim" then callTrim evalF args
  else if name = "coalesce" then callCoalesce evalF args
  else if name = "if" then callIf evalF args
  else if name = "year" then callDatePart evalF args "year"
  else if name = "month" then callDatePart evalF args "month"
  else if name = "day" then callDatePart evalF args "day"
  else if name = "count" ∨ name = "sum" ∨ name = "avg" ∨ name = "min" ∨
      name = "max" ∨ name = "first" ∨ name = "last" then
    .error (.err ("aggregate function " ++ name ++ " can only be used inside 'reduce'"))
  else .error (.err ("unknown function " ++ name))

/-- `engine.Eval`.  The fuel argument bounds the recursion depth and is an
embedding artifact only: Go's evaluator terminates because the expression
tree is finite, and any fuel at least the tree depth gives the same result. -/
def Eval : Nat → Expr → EvalContext → Except EvalErr Value
  | 0, _, _ => .error (.err "expression nesting too deep")
  | fuel+1, e, ctx =>
    match e with
    | .literal kind iv fv sv bv => .ok (evalLiteral kind iv fv sv bv)
    | .column name => evalColumn name ctx
    | .binary op l r => do
      let lv ← Eval fuel l ctx
      let rv ← Eval fuel r ctx
      evalBinaryOp op lv rv
    | .unary op a => do
      let v ← Eval fuel a ctx
      evalUnaryOp op v
    | .funcCall name args => evalFuncDispatch (fun a => Eval fuel a ctx) name args
    | .isNullE a neg => do
      let v ← Eval fuel a ctx
      .ok (.bool (if neg then !v.isNull else v.isNull))

/-! ## Aggregate evaluation (used by `reduce`) -/

/-- `engine.getColValues`. -/
def getColValues (name : String) (args : List Expr) (nested : Table) :
    Except EvalErr (List Value) :=
  match args with
  | [arg] =>
    match arg with
    | .column cname =>
      match nested.colIndex cname with
      | none => .error (.err (name ++ "(): column " ++ cname ++ " not found in nested table"))
      | some idx => .ok (nested.rows.map (fun r => getCell r idx))
    | _ => .error (.err (name ++ "() argument must be a column reference"))
  | _ => .error (.err (name ++ "() takes 1 argument"))

/-- The loop of `engine.aggSum`; state is `(sum, hasInt, intSum, any)`. -/
def aggSumLoop : List Value → Rat × Bool × Int × Bool →
    Except EvalErr (Rat × Bool × Int × Bool)
  | [], st => .ok st
  | v :: rest, (sum, hasInt, intSum, any) =>
    if v.isNull then aggSumLoop rest (sum, hasInt, intSum, any)
    else
      match v.asFloat with
      | none => .error (.err ("sum: non-numeric value " ++ v.asString))
      | some f =>
        if v.isInt then aggSumLoop rest (sum + f, hasInt, intSum + v.intVal, true)
        else aggSumLoop rest (sum + f, false, intSum, true)

/-- `engine.aggSum`. -/
def aggSum (args : List Expr) (nested : Table) : Except EvalErr Value := do
  let vals ← getColValues "sum" args nested
  let (sum, hasInt, intSum, any) ← aggSumLoop vals (0, true, 0, false)
  if !any then .ok .null
  else if hasInt then .ok (.int intSum)
  else .ok (.float sum)

/-- The loop of `engine.aggAvg`; state is `(sum, count)`. -/
def aggAvgLoop : List Value → Rat × Nat → Except EvalErr (Rat × Nat)
  | [], st => .ok st
  | v :: rest, (sum, count) =>
    if v.isNull then aggAvgLoop rest (sum, count)
    else
      match v.asFloat with
      | none => .error (.err ("avg: non-numeric value " ++ v.asString))
      | some f => aggAvgLoop rest (sum + f, count + 1)

/-- `engine.aggAvg`. -/
def aggAvg (args : List Expr) (nested : Table) : Except EvalErr Value := do
  let vals ← getColValues "avg" args nested
  let (sum, count) ← aggAvgLoop vals (0, 0)
  if count = 0 then .ok .null
  else .ok (.float (sum / (count : Rat)))

/-- The loop of `engine.aggMin`; state is `(minVal, any, isInt, minInt)`.
Go initialises `minVal` to `math.Inf(1)`, but the short-circuit
`!any || f < minVal` never reads it before the first update, so the initial
value is irrelevant and `0` is used here.  Note that an update with an Int
value passes `isInt` through unchanged — it is set to `false` only when a
Float value becomes the running minimum, and never set back to `true`. -/
def aggMinLoop : List Value → Rat × Bool × Bool × Int →
    Except EvalErr (Rat × Bool × Bool × Int)
  | [], st => .ok st
  | v :: rest, (minVal, any, isInt, minInt) =>
    if v.isNull then aggMinLoop rest (minVal, any, isInt, minInt)
    else
      match v.asFloat with
      | none => .error (.err ("min: non-numeric value " ++ v.asString))
      | some f =>
        if !any || f < minVal then
          if v.isInt then aggMinLoop rest (f, true, isInt, v.intVal)
          else aggMinLoop rest (f, true, false, minInt)
        else aggMinLoop rest (minVal, true, isInt, minInt)

/-- `engine.aggMin`. -/
def aggMin (args : List Expr) (nested : Table) : Except EvalErr Value := do
  let vals ← getColValues "min" args nested
  let (minVal, any, isInt, minInt) ← aggMinLoop vals (0, false, true, 0)
  if !any then .ok .null
  else if isInt then .ok (.int minInt)
  else .ok (.float minVal)

/-- The loop of `engine.aggMax`; mirror image of `aggMinLoop`
(initial `maxVal` is Go's `math.Inf(-1)`, likewise never read). -/
def aggMaxLoop : List Value → Rat × Bool × Bool × Int →
    Except EvalErr (Rat × Bool × Bool × Int)
  | [], st => .ok st
  | v :: rest, (maxVal, any, isInt, maxInt) =>
    if v.isNull then aggMaxLoop rest (maxVal, any, isInt, maxInt)
    else
      match v.asFloat with
      | none => .error (.err ("max: non-numeric value " ++ v.asString))
      | some f =>
        if !any || f > maxVal then
          if v.isInt then aggMaxLoop rest (f, true, isInt, v.intVal)
          else aggMaxLoop rest (f, true, false, maxInt)
        else aggMaxLoop rest (maxVal, true, isInt, maxInt)

/-- `engine.aggMax`. -/
def aggMax (args : List Expr) (nested : Table) : Except EvalErr Value := do
  let vals ← getColValues "max" args nested
  let (maxVal, any, isInt, maxInt) ← aggMaxLoop vals (0, false, true, 0)
  if !any then .ok .null
  else if isInt then .ok (.int maxInt)
  else .ok (.float maxVal)

/-- `engine.aggFirst` (does not skip nulls). -/
def aggFirst (args : List Expr) (nested : Table) : Except EvalErr Value := do
  let vals ← getColValues "first" args nested
  match vals with
  | [] => .ok .null
  | v :: _ => .ok v

/-- `engine.aggLast`. -/
def aggLast (args : List Expr) (nested : Table) : Except EvalErr Value := do
  let vals ← getColValues "last" args nested
  match vals with
  | [] => .ok .null
  | _ => .ok (vals.getLast!)

/-- `engine.EvalAggregate`. -/
def EvalAggregate : Expr → Table → Except EvalErr Value
  | .funcCall name args, nested =>
    if name = "count" then .ok (.int (nested.rows.length : Int))
    else if name = "sum" then aggSum args nested
    else if name = "avg" then aggAvg args nested
    else if name = "min" then aggMin args nested
    else if name = "max" then aggMax args nested
    else if name = "first" then aggFirst args nested
    else if name = "last" then aggLast args nested
    else .error (.err ("non-aggregate function " ++ name ++ " in reduce context"))
  | .binary op l r, nested => do
    let lv ← EvalAggregate l nested
    let rv ← EvalAggregate r nested
    if lv.isNull || rv.isNull then .ok .null
    else evalArith op lv rv
  | .literal kind iv fv sv bv, _ => .ok (evalLiteral kind iv fv sv bv)
  | _, _ => .error (.err "unsupported expression type in reduce")

/-! ## Pipeline operations (`engine/engine.go`) -/

/-- The index-resolution loops at the top of `execSort` / `execSelect` /
`execGroup`: first missing column aborts with `opName: column ... not
found`. -/
def resolveIndices (cols : List String) (t : Table) (opName : String) :
    Except EvalErr (List Nat) :=
  match cols with
  | [] => .ok []
  | c :: rest =>
    match t.colIndex c with
    | none => .error (.err (opName ++ ": column " ++ c ++ " not found"))
    | some i => do
      let is ← resolveIndices rest t opName
      .ok (i :: is)

/-- `engine.execHead`: `n` is clamped to the row count; the parser only
produces non-negative counts, so `Nat` is the faithful argument type. -/
def execHead (n : Nat) (t : Table) : Table :=
  ⟨t.columns, t.rows.take n⟩

/-- `engine.execTail`. -/
def execTail (n : Nat) (t : Table) : Table :=
  ⟨t.columns, t.rows.drop (t.rows.length - min n t.rows.length)⟩

/-- `engine.compareValues`: nulls sort last; numeric pairs compare as
numbers; anything else compares by rendered string. -/
def compareValues (a b : Value) : Int :=
  if a.isNull && b.isNull then 0
  else if a.isNull then 1
  else if b.isNull then -1
  else
    match a.asFloat, b.asFloat with
    | some af, some bf => if af < bf then -1 else if af > bf then 1 else 0
    | _, _ => stringsCompare a.asString b.asString

/-- The `less` closure passed to `sort.SliceStable` in `engine.execSort`:
first non-zero key comparison decides, `asc` selects the direction, full tie
is `false`. -/
def sortLess (idxs : List Nat) (asc : Bool) (a b : List Value) : Bool :=
  match idxs with
  | [] => false
  | i :: rest =>
    let cmp := compareValues (getCell a i) (getCell b i)
    if cmp ≠ 0 then (if asc then decide (cmp < 0) else decide (cmp > 0))
    else sortLess rest asc a b

/-- The non-strict order induced by the `less` closure (`a ≤ b` iff
`!less(b, a)`); a stable sort with respect to it is exactly what
`sort.SliceStable(less)` computes. -/
def rowLe (idxs : List Nat) (asc : Bool) (a b : List Value) : Prop :=
  sortLess idxs asc b a = false

instance rowLeDec (idxs : List Nat) (asc : Bool) : DecidableRel (rowLe idxs asc) :=
  fun a b => inferInstanceAs (Decidable (sortLess idxs asc b a = false))

/-- `engine.execSort`: `sort.SliceStable` is modelled by the stable
insertion sort `List.insertionSort` over `rowLe` (for a comparator that is
total and transitive the two agree, being the unique stable sort). -/
def execSort (cols : List String) (asc : Bool) (t : Table) : Except EvalErr Table := do
  let idxs ← resolveIndices cols t "sort"
  .ok ⟨t.columns, List.insertionSort (rowLe idxs asc) t.rows⟩

/-- `engine.execSelect`. -/
def execSelect (cols : List String) (t : Table) : Except EvalErr Table := do
  let idxs ← resolveIndices cols t "select"
  .ok ⟨cols, t.rows.map (fun r => idxs.map (fun i => getCell r i))⟩

/-- The row loop of `engine.execFilter`. -/
def filterRows (fuel : Nat) (e : Expr) (t : Table) :
    List (List Value) → Except EvalErr (List (List Value))
  | [] => .ok []
  | row :: rest =>
    match Eval fuel e ⟨t, row⟩ with
    | .error er => .error (er.wrap "filter: ")
    | .ok val =>
      match val.asBool with
      | none => .error (.err ("filter: expression did not return boolean, got " ++ val.asString))
      | some b => do
        let rest' ← filterRows fuel e t rest
        .ok (if b then row :: rest' else rest')

/-- `engine.execFilter`. -/
def execFilter (fuel : Nat) (e : Expr) (t : Table) : Except EvalErr Table := do
  let rows ← filterRows fuel e t t.rows
  .ok ⟨t.columns, rows⟩

/-- One entry of the `groups` slice in `engine.execGroup`. -/
structure GroupEntry where
  keyStr : String
  keyVals : List Value
  nestedRows : List (List Value)

/-- The key string of a row: rendered key values joined by `"\x00"`. -/
def rowKeyStr (gidx : List Nat) (row : List Value) : String :=
  String.intercalate "\x00" (gidx.map (fun i => (getCell row i).asString))

/-- Appending one row to the group structure: Go keeps a `map[string]int`
from key string to group index and appends the nested row there, creating a
new group at the end on a miss; an association-list search is the same
observable behaviour. -/
def addToGroups (keyStr : String) (keyVals nrow : List Value) :
    List GroupEntry → List GroupEntry
  | [] => [⟨keyStr, keyVals, [nrow]⟩]
  | g :: rest =>
    if g.keyStr = keyStr then ⟨g.keyStr, g.keyVals, g.nestedRows ++ [nrow]⟩ :: rest
    else g :: addToGroups keyStr keyVals nrow rest

/-- The row loop of `engine.execGroup`. -/
def groupRows (gidx nidx : List Nat) :
    List (List Value) → List GroupEntry → List GroupEntry
  | [], acc => acc
  | row :: rest, acc =>
    groupRows gidx nidx rest
      (addToGroups (rowKeyStr gidx row) (gidx.map (fun i => getCell row i))
        (nidx.map (fun i => getCell row i)) acc)

/-- The complement columns (index, name) in original order: those whose
index is not a group index. -/
def complementCols (t : Table) (gidx : List Nat) : List (Nat × String) :=
  t.columns.enum.filter (fun p => !(gidx.contains p.1))

/-- `engine.execGroup`. -/
def execGroup (cols : List String) (nestedName : String) (t : Table) :
    Except EvalErr Table := do
  let gidx ← resolveIndices cols t "group"
  let comp := complementCols t gidx
  let nestedCols := comp.map (fun p => p.2)
  let nidx := comp.map (fun p => p.1)
  let entries := groupRows gidx nidx t.rows []
  .ok ⟨cols ++ [nestedName],
    entries.map (fun g => g.keyVals ++ [Value.nestedT nestedCols g.nestedRows])⟩

/-- The layout pass shared by `execTransform` and `execReduce`: walk the
assignments, reusing the index of an existing column of the evolving layout
and appending a fresh column otherwise.  Returns the final column list and
one target index per assignment. -/
def computeLayout (cols : List String) (assigns : List Assignment) :
    List String × List Nat :=
  match assigns with
  | [] => (cols, [])
  | a :: rest =>
    match cols.findIdx? (fun x => x == a.column) with
    | some i =>
      let (nc, ts) := computeLayout cols rest
      (nc, i :: ts)
    | none =>
      let (nc, ts) := computeLayout (cols ++ [a.column]) rest
      (nc, cols.length :: ts)

/-- `make([]Value, n)` (zero value of `Value` is the null value) followed by
`copy(vals, row)`; the Go code then re-fills the tail with nulls, which is a
no-op. -/
def goCopyPad (n : Nat) (src : List Value) : List Value :=
  src.take n ++ List.replicate (n - src.length) Value.null

/-- The assignment loop of `execTransform`'s row body: evaluate each
assignment and store it at its precomputed target index. -/
def applyAssigns (fuel : Nat) (t : Table) (row : List Value) :
    List Assignment → List Nat → List Value → Except EvalErr (List Value)
  | [], _, vals => .ok vals
  | a :: rest, i :: trest, vals =>
    match Eval fuel a.expr ⟨t, row⟩ with
    | .error er => .error (er.wrap ("transform " ++ a.column ++ ": "))
    | .ok v => applyAssigns fuel t row rest trest (vals.set i v)
  | _ :: _, [], _ => .error (.err "internal: assignment/target mismatch")

/-- The row loop of `engine.execTransform`. -/
def transformRows (fuel : Nat) (assigns : List Assignment) (targets : List Nat)
    (n : Nat) (t : Table) : List (List Value) → Except EvalErr (List (List Value))
  | [] => .ok []
  | row :: rest => do
    let vals ← applyAssigns fuel t row assigns targets (goCopyPad n row)
    let rest' ← transformRows fuel assigns targets n t rest
    .ok (vals :: rest')

/-- `engine.execTransform`. -/
def execTransform (fuel : Nat) (assigns : List Assignment) (t : Table) :
    Except EvalErr Table :=
  let (newCols, targets) := computeLayout t.columns assigns
  do
    let rows ← transformRows fuel assigns targets newCols.length t t.rows
    .ok ⟨newCols, rows⟩

/-- The assignment loop of `execReduce`'s row body (aggregate mode). -/
def applyAggAssigns (nested : Table) :
    List Assignment → List Nat → List Value → Except EvalErr (List Value)
  | [], _, vals => .ok vals
  | a :: rest, i :: trest, vals =>
    match EvalAggregate a.expr nested with
    | .error er => .error (er.wrap ("reduce " ++ a.column ++ ": "))
    | .ok v => applyAggAssigns nested rest trest (vals.set i v)
  | _ :: _, [], _ => .error (.err "internal: assignment/target mismatch")

/-- The row loop of `engine.execReduce`: the nested cell must hold a nested
table (Go also rejects a nil inner pointer, which has no counterpart in this
model). -/
def reduceRows (assigns : List Assignment) (targets : List Nat) (n : Nat)
    (nestedIdx : Nat) : List (List Value) → Except EvalErr (List (List Value))
  | [] => .ok []
  | row :: rest =>
    match getCell row nestedIdx with
    | .nestedT ncols nrows => do
      let vals ← applyAggAssigns ⟨ncols, nrows⟩ assigns targets (goCopyPad n row)
      let rest' ← reduceRows assigns targets n nestedIdx rest
      .ok (vals :: rest')
    | _ => .error (.err "reduce: column is not a nested table")

/-- `engine.execReduce`. -/
def execReduce (assigns : List Assignment) (nestedName : String) (t : Table) :
    Except EvalErr Table :=
  match t.colIndex nestedName with
  | none => .error (.err ("reduce: nested column " ++ nestedName ++
      " not found (did you forget to group first?)"))
  | some nestedIdx =>
    let (newCols, targets) := computeLayout t.columns assigns
    do
      let rows ← reduceRows assigns targets newCols.length nestedIdx t.rows
      .ok ⟨newCols, rows⟩

/-- `engine.execCount`. -/
def execCount (t : Table) : Table :=
  ⟨["count"], [[Value.int (t.rows.length : Int)]]⟩

/-- The per-row deduplication key of `engine.execDistinct`: the named
columns when a column list was given, the whole row otherwise. -/
def distinctKey (idxs : List Nat) (row : List Value) : String :=
  if idxs.isEmpty then String.intercalate "\x00" (row.map Value.asString)
  else String.intercalate "\x00" (idxs.map (fun i => (getCell row i).asString))

/-- The row loop of `engine.execDistinct`: keep the first row seen for each
key (the `seen` map is modelled by the list of keys already kept). -/
def distinctLoop (idxs : List Nat) (seen : List String) :
    List (List Value) → List (List Value)
  | [] => []
  | row :: rest =>
    let key := distinctKey idxs row
    if key ∈ seen then distinctLoop idxs seen rest
    else row :: distinctLoop idxs (key :: seen) rest

/-- The index-resolution loop of `execDistinct`: unlike the erroring
`resolveIndices`, a missing column makes the whole resolution fail with no
error value. -/
def resolveIndicesOpt (cols : List String) (t : Table) : Option (List Nat) :=
  match cols with
  | [] => some []
  | c :: rest =>
    match t.colIndex c with
    | none => none
    | some i => (resolveIndicesOpt rest t).map (fun is => i :: is)

/-- `engine.execDistinct`: resolving a non-empty column list with an unknown
name returns an empty table with the input's columns instead of an error;
`execDistinct` has no error return at all. -/
def execDistinct (cols : List String) (t : Table) : Table :=
  if cols.isEmpty then ⟨t.columns, distinctLoop [] [] t.rows⟩
  else
    match resolveIndicesOpt cols t with
    | none => ⟨t.columns, []⟩
    | some idxs => ⟨t.columns, distinctLoop idxs [] t.rows⟩

/-- The pair loop of `engine.execRename`: replace the first occurrence of
each old name in the evolving column list, error if absent. -/
def renameFold (pairs : List (String × String)) (cols : List String) :
    Except EvalErr (List String) :=
  match pairs with
  | [] => .ok cols
  | (old, nw) :: rest =>
    match cols.findIdx? (fun c => c == old) with
    | none => .error (.err ("rename: column " ++ old ++ " not found"))
    | some i => renameFold rest (cols.set i nw)

/-- `engine.execRename`: rows are reused unchanged. -/
def execRename (pairs : List (String × String)) (t : Table) : Except EvalErr Table := do
  let newCols ← renameFold pairs t.columns
  .ok ⟨newCols, t.rows⟩

/-- The presence check at the top of `engine.execRemove`. -/
def checkAllPresent (cols : List String) (t : Table) : Except EvalErr Unit :=
  match cols with
  | [] => .ok ()
  | c :: rest =>
    match t.colIndex c with
    | none => .error (.err ("remove: column " ++ c ++ " not found"))
    | some _ => checkAllPresent rest t

/-- `engine.execRemove`. -/
def execRemove (cols : List String) (t : Table) : Except EvalErr Table := do
  checkAllPresent cols t
  let keepPairs := t.columns.enum.filter (fun p => !(cols.contains p.2))
  .ok ⟨keepPairs.map (fun p => p.2),
    t.rows.map (fun r => keepPairs.map (fun p => getCell r p.1))⟩

/-! ## Expression parser (`parser/parser.go`)

The token kinds and the precedence-climbing expression parser.  The parser
state (token slice plus cursor) becomes the list of remaining tokens; each
function returns the parsed node together with that list.  The fuel
argument is an embedding artifact bounding the recursion depth: Go's parser
terminates because every recursive call consumes tokens, and any fuel
larger than the token count gives the same result. -/

/-- `lexer.TokenType` (the kinds the expression grammar can see). -/
inductive TokenType where
  | tIdent | tBacktickIdent | tInt | tFloat | tString
  | tTrue | tFalse | tNull | tIs | tNot | tAnd | tOr
  | tEq | tNeq | tLt | tGt | tLte | tGte
  | tPlus | tMinus | tStar | tSlash
  | tLParen | tRParen | tComma | tPipe | tLBrace | tRBrace
  | tEquals | tDot | tAs | tEOF
deriving DecidableEq

/-- `lexer.Token`. -/
structure Token where
  tokType : TokenType
  val : String
  pos : Nat
deriving DecidableEq

/-- Models `strconv.ParseInt(v, 10, 64)` (Go standard library); 64-bit
overflow is not modelled, and no claim exercises it. -/
def parseIntModel (s : String) : Option Int := s.toInt?

/-- Models `strconv.ParseFloat(v, 64)` (Go standard library) for plain
decimal literals `digits[.digits]`; exponent forms are not modelled, and no
claim exercises float literals at all. -/
def parseFloatModel (s : String) : Option Rat :=
  match s.splitOn "." with
  | [ip] => (parseIntModel ip).map (fun i => (i : Rat))
  | [ip, fp] =>
    match parseIntModel ip, fp.toNat? with
    | some i, some f =>
      some ((i : Rat) + (f : Rat) / ((10 : Rat) ^ fp.length))
    | _, _ => none
  | _ => none

/-- `parser.precOr` … `parser.precUnary`. -/
def precOr : Int := 1

/-- Precedence of `and`. -/
def precAnd : Int := 2

/-- Precedence of the comparison operators. -/
def precComp : Int := 3

/-- Precedence of `+`/`-`. -/
def precAdd : Int := 4

/-- Precedence of `*`/`/`. -/
def precMul : Int := 5

/-- `parser.peekBinaryOp`: operator text and precedence of the next token,
when it is a binary operator. -/
def peekBinaryOp : List Token → Option (String × Int)
  | [] => none
  | tok :: _ =>
    match tok.tokType with
    | .tOr => some ("or", precOr)
    | .tAnd => some ("and", precAnd)
    | .tEq => some ("==", precComp)
    | .tNeq => some ("!=", precComp)
    | .tLt => some ("<", precComp)
    | .tGt => some (">", precComp)
    | .tLte => some ("<=", precComp)
    | .tGte => some (">=", precComp)
    | .tPlus => some ("+", precAdd)
    | .tMinus => some ("-", precAdd)
    | .tStar => some ("*", precMul)
    | .tSlash => some ("/", precMul)
    | _ => none

/-- The trailing `is [not] null` check at the end of `parseExprPrec`.  Note
that in the Go source this check runs in every `parseExprPrec` activation,
including the recursive calls that parse right operands. -/
def parseIsSuffix (left : Expr) (ts : List Token) : Except EvalErr (Expr × List Token) :=
  match ts with
  | ⟨.tIs, _, _⟩ :: rest =>
    match rest with
    | ⟨.tNot, _, _⟩ :: rest2 =>
      match rest2 with
      | ⟨.tNull, _, _⟩ :: rest3 => .ok (.isNullE left true, rest3)
      | _ => .error (.err "expected 'null' after 'is not'")
    | ⟨.tNull, _, _⟩ :: rest2 => .ok (.isNullE left false, rest2)
    | _ => .error (.err "expected 'null' after 'is'")
  | _ => .ok (left, ts)

mutual

/-- `parser.parseExprPrec`. -/
def parseExprPrec : Nat → Int → List Token → Except EvalErr (Expr × List Token)
  | 0, _, _ => .error (.err "parser fuel exhausted")
  | fuel+1, minPrec, ts => do
    let (left, ts1) ← parseUnary fuel ts
    let (left2, ts2) ← parseBinLoop fuel minPrec left ts1
    parseIsSuffix left2 ts2

/-- The binary-operator loop inside `parseExprPrec`
(`advanceBinaryOp` consumes exactly one token). -/
def parseBinLoop : Nat → Int → Expr → List Token → Except EvalErr (Expr × List Token)
  | 0, _, _, _ => .error (.err "parser fuel exhausted")
  | fuel+1, minPrec, left, ts =>
    match peekBinaryOp ts with
    | none => .ok (left, ts)
    | some (op, prec) =>
      if prec < minPrec then .ok (left, ts)
      else do
        let (right, ts1) ← parseExprPrec fuel (prec + 1) (ts.drop 1)
        parseBinLoop fuel minPrec (.binary op left right) ts1

/-- `parser.parseUnary`. -/
def parseUnary : Nat → List Token → Except EvalErr (Expr × List Token)
  | 0, _ => .error (.err "parser fuel exhausted")
  | fuel+1, ts =>
    match ts with
    | ⟨.tNot, _, _⟩ :: rest => do
      let (operand, ts1) ← parseUnary fuel rest
      .ok (.unary "not" operand, ts1)
    | ⟨.tMinus, _, _⟩ :: rest => do
      let (operand, ts1) ← parseUnary fuel rest
      .ok (.unary "-" operand, ts1)
    | _ => parsePrimary fuel ts

/-- `parser.parsePrimary`. -/
def parsePrimary : Nat → List Token → Except EvalErr (Expr × List Token)
  | 0, _ => .error (.err "parser fuel exhausted")
  | fuel+1, ts =>
    match ts with
    | ⟨.tInt, v, _⟩ :: rest =>
      match parseIntModel v with
      | some n => .ok (.literal "int" n 0 "" false, rest)
      | none => .error (.err ("invalid integer " ++ v))
    | ⟨.tFloat, v, _⟩ :: rest =>
      match parseFloatModel v with
      | some q => .ok (.literal "float" 0 q "" false, rest)
      | none => .error (.err ("invalid float " ++ v))
    | ⟨.tString, v, _⟩ :: rest => .ok (.literal "string" 0 0 v false, rest)
    | ⟨.tTrue, _, _⟩ :: rest => .ok (.literal "bool" 0 0 "" true, rest)
    | ⟨.tFalse, _, _⟩ :: rest => .ok (.literal "bool" 0 0 "" false, rest)
    | ⟨.tNull, _, _⟩ :: rest => .ok (.literal "null" 0 0 "" false, rest)
    | ⟨.tBacktickIdent, v, _⟩ :: rest => .ok (.column v, rest)
    | ⟨.tIdent, v, _⟩ :: rest =>
      match rest with
      | ⟨.tLParen, _, _⟩ :: _ => parseFuncCall fuel v rest
      | _ => .ok (.column v, rest)
    | ⟨.tLParen, _, _⟩ :: rest => do
      let (e, ts1) ← parseExprPrec fuel precOr rest
      match ts1 with
      | ⟨.tRParen, _, _⟩ :: ts2 => .ok (e, ts2)
      | _ => .error (.err "expected )")
    | _ => .error (.err "unexpected token in expression")

/-- `parser.parseFuncCall` (entered holding the `(` token; the function name
is case-normalized with `strings.ToLower`). -/
def parseFuncCall : Nat → String → List Token → Except EvalErr (Expr × List Token)
  | 0, _, _ => .error (.err "parser fuel exhausted")
  | fuel+1, name, ts =>
    let lname := name.toLower
    match ts with
    | ⟨.tLParen, _, _⟩ :: rest =>
      match rest with
      | ⟨.tRParen, _, _⟩ :: rest2 => .ok (.funcCall lname [], rest2)
      | _ => do
        let (args, ts1) ← parseArgsLoop fuel rest
        match ts1 with
        | ⟨.tRParen, _, _⟩ :: ts2 => .ok (.funcCall lname args, ts2)
        | _ => .error (.err "expected ) in function call")
    | _ => .error (.err "expected ( in function call")

/-- The comma-separated argument loop of `parseFuncCall`. -/
def parseArgsLoop : Nat → List Token → Except EvalErr (List Expr × List Token)
  | 0, _ => .error (.err "parser fuel exhausted")
  | fuel+1, ts => do
    let (arg, ts1) ← parseExprPrec fuel precOr ts
    match ts1 with
    | ⟨.tComma, _, _⟩ :: rest => do
      let (args, ts2) ← parseArgsLoop fuel rest
      .ok (arg :: args, ts2)
    | _ => .ok ([arg], ts1)

end

/-- `parser.parseExpr`. -/
def parseExpr (fuel : Nat) (ts : List Token) : Except EvalErr (Expr × List Token) :=
  parseExprPrec fuel precOr ts

/-! ## Specification-side helpers

These definitions are not translations of source functions; they only serve
to state properties of the embedded code. -/

/-- Whether `filter` keeps a row: the expression evaluates to the boolean
`true` (used to state the filter characterisation). -/
def keepsRow (fuel : Nat) (e : Expr) (t : Table) (row : List Value) : Bool :=
  match Eval fuel e ⟨t, row⟩ with
  | .ok (.bool true) => true
  | _ => false

/-- First-seen deduplication of a key-string list, given the keys already
seen (used to state the group/distinct characterisations). -/
def firstSeenKeys (seen : List String) : List String → List String
  | [] => []
  | k :: ks => if k ∈ seen then firstSeenKeys seen ks else k :: firstSeenKeys (k :: seen) ks

/-- A row evaluates to an acceptable filter value: `Eval` succeeds and the
result coerces through `AsBool` (i.e. it is a boolean or null). -/
def BoolishRow (fuel : Nat) (e : Expr) (t : Table) (row : List Value) : Prop :=
  ∃ v, Eval fuel e ⟨t, row⟩ = .ok v ∧ v.asBool.isSome

/-- The field invariant of every group entry: the stored key string is the
rendering of the stored key values, which are exactly as wide as the group
column list. -/
def GoodEntry (gidx : List Nat) (g : GroupEntry) : Prop :=
  g.keyStr = String.intercalate "\x00" (g.keyVals.map Value.asString) ∧
  g.keyVals.length = gidx.length

/-- The width invariant of the nested rows collected in a group entry. -/
def NestedGood (nidx : List Nat) (g : GroupEntry) : Prop :=
  ∀ nr ∈ g.nestedRows, nr.length = nidx.length

/-! ## Helper lemmas -/

@[simp] theorem except_bind_ok {α β : Type} (a : α) (f : α → Except EvalErr β) :
    (Except.ok a >>= f) = f a := rfl

@[simp] theorem except_bind_error {α β : Type} (er : EvalErr) (f : α → Except EvalErr β) :
    ((Except.error er : Except EvalErr α) >>= f) = Except.error er := rfl

theorem exists_error_of_not_ok {α : Type} {x : Except EvalErr α}
    (h : ∀ a, x ≠ .ok a) : ∃ er, x = .error er := by
  cases x with
  | error er => exact ⟨er, rfl⟩
  | ok a => exact absurd rfl (h a)

theorem resolveIndicesOpt_none {t : Table} {cols : List String} {c : String}
    (hc : c ∈ cols) (hm : t.colIndex c = none) :
    resolveIndicesOpt cols t = none := by
  induction cols with
  | nil => cases hc
  | cons d ds ih =>
    rcases List.mem_cons.mp hc with h | h
    · subst h
      simp [resolveIndicesOpt, hm]
    · cases hd : t.colIndex d <;> simp [resolveIndicesOpt, hd, ih h]

theorem resolveIndices_not_ok {t : Table} {cols : List String} {c : String} (op : String)
    (hc : c ∈ cols) (hm : t.colIndex c = none) :
    ∀ idxs, resolveIndices cols t op ≠ .ok idxs := by
  induction cols with
  | nil => cases hc
  | cons d ds ih =>
    intro idxs
    rcases List.mem_cons.mp hc with h | h
    · subst h
      simp [resolveIndices, hm]
    · cases hd : t.colIndex d
      · simp [resolveIndices, hd]
      · simp only [resolveIndices, hd]
        cases hrest : resolveIndices ds t op with
        | error er => simp [hrest]
        | ok is => exact absurd hrest (ih h is)

theorem checkAllPresent_not_ok {t : Table} {cols : List String} {c : String}
    (hc : c ∈ cols) (hm : t.colIndex c = none) :
    ∀ u, checkAllPresent cols t ≠ .ok u := by
  induction cols with
  | nil => cases hc
  | cons d ds ih =>
    intro u
    rcases List.mem_cons.mp hc with h | h
    · subst h
      simp [checkAllPresent, hm]
    · cases hd : t.colIndex d
      · simp [checkAllPresent, hd]
      · simpa [checkAllPresent, hd] using ih h u

theorem resolveIndices_length {t : Table} {op : String} :
    ∀ {cols : List String} {idxs : List Nat},
      resolveIndices cols t op = .ok idxs → idxs.length = cols.length := by
  intro cols
  induction cols with
  | nil =>
    intro idxs h
    simp only [resolveIndices] at h
    cases h
    rfl
  | cons d ds ih =>
    intro idxs h
    cases hd : t.colIndex d <;> rw [resolveIndices, hd] at h
    · cases h
    · cases hrest : resolveIndices ds t op with
      | error er =>
        rw [hrest] at h
        simp at h
      | ok is =>
        rw [hrest] at h
        simp at h
        subst h
        simp [ih hrest]

theorem filterRows_ok {fuel : Nat} {e : Expr} {t : Table} :
    ∀ {l : List (List Value)}, (∀ r ∈ l, BoolishRow fuel e t r) →
      filterRows fuel e t l = .ok (l.filter (keepsRow fuel e t)) := by
  intro l
  induction l with
  | nil => intro _; rfl
  | cons r rest ih =>
    intro h
    obtain ⟨v, hv, hb⟩ := h r (by simp)
    obtain ⟨b, hb'⟩ := Option.isSome_iff_exists.mp hb
    have hrest := ih (fun r hr => h r (List.mem_cons_of_mem _ hr))
    have hkeep : keepsRow fuel e t r = b := by
      cases v with
      | bool bb =>
        simp only [Value.asBool, Option.some.injEq] at hb'
        subst hb'
        cases bb <;> simp [keepsRow, hv]
      | null =>
        simp only [Value.asBool, Option.some.injEq] at hb'
        subst hb'
        simp [keepsRow, hv]
      | int i => simp [Value.asBool] at hb'
      | float f => simp [Value.asBool] at hb'
      | str s => simp [Value.asBool] at hb'
      | nestedT cs rs => simp [Value.asBool] at hb'
    simp [filterRows, hv, hb', hrest, List.filter_cons, hkeep]

theorem filterRows_error {fuel : Nat} {e : Expr} {t : Table} :
    ∀ {l : List (List Value)}, (¬ ∀ r ∈ l, BoolishRow fuel e t r) →
      ∃ er, filterRows fuel e t l = .error er := by
  intro l
  induction l with
  | nil => intro h; exact absurd (by simp) h
  | cons r rest ih =>
    intro h
    by_cases hr : BoolishRow fuel e t r
    · obtain ⟨v, hv, hb⟩ := hr
      obtain ⟨b, hb'⟩ := Option.isSome_iff_exists.mp hb
      have hrest : ¬ ∀ x ∈ rest, BoolishRow fuel e t x := by
        intro hall
        exact h (fun x hx => by
          rcases List.mem_cons.mp hx with h' | h'
          · exact h' ▸ ⟨v, hv, hb⟩
          · exact hall x h')
      obtain ⟨er, he⟩ := ih hrest
      exact ⟨er, by simp [filterRows, hv, hb', he]⟩
    · cases heval : Eval fuel e ⟨t, r⟩ with
      | error er => exact ⟨er.wrap "filter: ", by simp [filterRows, heval]⟩
      | ok v =>
        cases hvb : v.asBool with
        | none =>
          exact ⟨.err ("filter: expression did not return boolean, got " ++ v.asString),
            by simp [filterRows, heval, hvb]⟩
        | some b => exact absurd ⟨v, heval, by simp [hvb]⟩ hr

/-! ## Claim C1 — filter truth values -/

/-- C1 (corrected): `filter` evaluates the expression once per row and keeps,
in original order, exactly the rows whose result is the boolean `true`; it
fails if and only if some row's expression either fails or returns a value
that is neither a boolean nor null.  Contrary to the original claim, a null
result is NOT an error: `AsBool` coerces null to `false`, so the row is
silently dropped. -/
theorem c1_filter_null_is_false (fuel : Nat) (e : Expr) (t : Table) :
    ((∀ r ∈ t.rows, BoolishRow fuel e t r) →
      execFilter fuel e t = .ok ⟨t.columns, t.rows.filter (keepsRow fuel e t)⟩) ∧
    ((∃ er, execFilter fuel e t = .error er) ↔ ¬ ∀ r ∈ t.rows, BoolishRow fuel e t r) ∧
    (∀ r, Eval fuel e ⟨t, r⟩ = .ok .null → keepsRow fuel e t r = false) := by
  refine ⟨?_, ⟨?_, ?_⟩, ?_⟩
  · intro h
    simp [execFilter, filterRows_ok h]
  · rintro ⟨er, her⟩ hall
    rw [execFilter, filterRows_ok hall] at her
    simp at her
  · intro hbad
    obtain ⟨er, he⟩ := filterRows_error hbad
    exact ⟨er, by simp [execFilter, he]⟩
  · intro r hnull
    simp [keepsRow, hnull]

/-- Witness for C1 at a concrete table: a one-row table whose filter
expression evaluates to `true` keeps the row. -/
theorem c1_filter_null_is_false_witness :
    execFilter 1 (Expr.litBool true) ⟨["a"], [[Value.int 7]]⟩ =
      .ok ⟨["a"], [[Value.int 7]]⟩ :=
  (c1_filter_null_is_false 1 (Expr.litBool true) ⟨["a"], [[Value.int 7]]⟩).1
    (fun r hr => ⟨.bool true, rfl, rfl⟩)

/-- Counterexample to C1 as stated: filtering a table whose single row makes
the expression null succeeds with an empty result (the row is dropped),
whereas the claim requires the whole operation to fail with an error. -/
theorem c1_filter_null_is_false_counterexample :
    execFilter 1 (Expr.column "a") ⟨["a"], [[Value.null]]⟩ = .ok ⟨["a"], []⟩ := rfl

/-! ## Claim C6 — integer arithmetic -/

/-- C6 (confirmed): on two non-null Int operands `+`, `-`, `*` produce an
Int; `/` produces an Int exactly for a non-zero divisor dividing the
dividend, a Float otherwise; and for any numeric operands a zero divisor
yields null, not an error. -/
theorem c6_int_arithmetic (x y : Int) :
    evalArith "+" (.int x) (.int y) = .ok (.int (x + y)) ∧
    evalArith "-" (.int x) (.int y) = .ok (.int (x - y)) ∧
    evalArith "*" (.int x) (.int y) = .ok (.int (x * y)) ∧
    (y ≠ 0 → y ∣ x → evalArith "/" (.int x) (.int y) = .ok (.int (x / y))) ∧
    (y ≠ 0 → ¬ y ∣ x → evalArith "/" (.int x) (.int y) = .ok (.float ((x : Rat) / (y : Rat)))) ∧
    (∀ l r : Value, l.asFloat.isSome → r.asFloat = some 0 →
      evalArith "/" l r = .ok .null) := by
  refine ⟨?_, ?_, ?_, ?_, ?_, ?_⟩
  · have hw : ((x : Rat) + (y : Rat)) = ((x + y : Int) : Rat) := by push_cast; ring
    have hden : ((x : Rat) + (y : Rat)).den = 1 := by rw [hw]; exact Rat.den_intCast _
    have hnum : ((x : Rat) + (y : Rat)).num = x + y := by rw [hw]; exact Rat.num_intCast _
    simp [evalArith, strConcat?, Value.asFloat, Value.isInt, ratIsWhole, hden, hnum]
  · have hw : ((x : Rat) - (y : Rat)) = ((x - y : Int) : Rat) := by push_cast; ring
    have hden : ((x : Rat) - (y : Rat)).den = 1 := by rw [hw]; exact Rat.den_intCast _
    have hnum : ((x : Rat) - (y : Rat)).num = x - y := by rw [hw]; exact Rat.num_intCast _
    simp [evalArith, strConcat?, Value.asFloat, Value.isInt, ratIsWhole, hden, hnum]
  · have hw : ((x : Rat) * (y : Rat)) = ((x * y : Int) : Rat) := by push_cast; ring
    have hden : ((x : Rat) * (y : Rat)).den = 1 := by rw [hw]; exact Rat.den_intCast _
    have hnum : ((x : Rat) * (y : Rat)).num = x * y := by rw [hw]; exact Rat.num_intCast _
    simp [evalArith, strConcat?, Value.asFloat, Value.isInt, ratIsWhole, hden, hnum]
  · intro hb hdvd
    have hz : ¬ ((y : Rat) = 0) := by simpa using hb
    have hmod : x % y = 0 := Int.emod_eq_zero_of_dvd hdvd
    simp [evalArith, strConcat?, Value.asFloat, Value.isInt, Value.intVal, hz, hmod]
  · intro hb hdvd
    have hz : ¬ ((y : Rat) = 0) := by simpa using hb
    have hmod : ¬ (x % y = 0) := fun h => hdvd (Int.dvd_of_emod_eq_zero h)
    simp [evalArith, strConcat?, Value.asFloat, Value.isInt, Value.intVal, hz, hmod]
  · intro l r hl hr
    cases l <;> simp [Value.asFloat] at hl <;>
      cases r <;> simp [Value.asFloat] at hr <;>
        simp [evalArith, strConcat?, Value.asFloat, hr]

/-- Witness for C6 at concrete operands. -/
theorem c6_int_arithmetic_witness :
    evalArith "+" (.int 2) (.int 3) = .ok (.int (2 + 3)) ∧
    evalArith "/" (.int 6) (.int 2) = .ok (.int (6 / 2)) ∧
    evalArith "/" (.int 7) (.int 2) = .ok (.float (((7 : Int) : Rat) / ((2 : Int) : Rat))) ∧
    evalArith "/" (.int 1) (.int 0) = .ok .null :=
  ⟨(c6_int_arithmetic 2 3).1,
   (c6_int_arithmetic 6 2).2.2.2.1 (by decide) (by decide),
   (c6_int_arithmetic 7 2).2.2.2.2.1 (by decide) (by decide),
   (c6_int_arithmetic 1 0).2.2.2.2.2 (.int 1) (.int 0) (by simp [Value.asFloat])
     (by simp [Value.asFloat])⟩

/-! ## Claim C7 — substr safety -/

/-- C7 (code bug): `substr` is specified never to error or crash for any
integer `start`/`len`, but a negative `len` with `start < len s` produces
the Go slice `s[start:start+len]` whose upper bound is below its lower
bound, which panics at run time.  This theorem evaluates the embedded code
at the failing input `substr("abc", 0, -1)`. -/
theorem c7_substr_negative_length_panics :
    callSubstr (fun e => Eval 1 e ⟨⟨[], []⟩, []⟩)
      [Expr.litStr "abc", Expr.litInt 0, Expr.litInt (-1)]
      = .error (.goPanic "slice bounds out of range") := rfl

/-! ## Claim C8 — distinct with an unknown column -/

/-- C8 (confirmed): `distinct` with a column list containing a name absent
from the table returns the input's columns with zero rows instead of
erroring, while `select`, `remove` and `rename` all fail on the same
unknown name. -/
theorem c8_distinct_unknown_column (t : Table) (cols : List String) (c x : String)
    (hc : c ∈ cols) (hmiss : t.colIndex c = none) :
    execDistinct cols t = ⟨t.columns, []⟩ ∧
    (∃ er, execSelect cols t = .error er) ∧
    (∃ er, execRemove cols t = .error er) ∧
    (∃ er, execRename [(c, x)] t = .error er) := by
  have hne : cols ≠ [] := by rintro rfl; cases hc
  refine ⟨?_, ?_, ?_, ?_⟩
  · rw [execDistinct, if_neg (by simpa using hne), resolveIndicesOpt_none hc hmiss]
  · obtain ⟨er, he⟩ :=
      exists_error_of_not_ok (fun is => resolveIndices_not_ok "select" hc hmiss is)
    exact ⟨er, by simp [execSelect, he]⟩
  · obtain ⟨er, he⟩ :=
      exists_error_of_not_ok (fun u => checkAllPresent_not_ok hc hmiss u)
    exact ⟨er, by simp [execRemove, he]⟩
  · refine ⟨.err ("rename: column " ++ c ++ " not found"), ?_⟩
    rw [execRename]
    have hf : t.columns.findIdx? (fun y => y == c) = none := hmiss
    simp [renameFold, hf]

/-- Witness for C8 at a concrete table. -/
theorem c8_distinct_unknown_column_witness :
    execDistinct ["zzz"] ⟨["a"], [[Value.int 1]]⟩ = ⟨["a"], []⟩ :=
  (c8_distinct_unknown_column ⟨["a"], [[Value.int 1]]⟩ ["zzz"] "zzz" "b"
    (by simp) rfl).1

/-! ## Claim C4 — aggregate numeric result types -/

theorem isNull_false_of_asFloat {v : Value} (h : v.asFloat.isSome = true) :
    v.isNull = false := by
  cases v <;> first | rfl | simp [Value.asFloat] at h

theorem isNull_false_of_isFloat {v : Value} (h : v.isFloat = true) :
    v.isNull = false := by
  cases v <;> first | rfl | simp [Value.isFloat] at h

theorem isInt_false_of_isFloat {v : Value} (h : v.isFloat = true) :
    v.isInt = false := by
  cases v <;> first | rfl | simp [Value.isFloat] at h

theorem isInt_true_of_numeric_not_float {v : Value} (h : v.asFloat.isSome = true)
    (h2 : v.isFloat = false) : v.isInt = true := by
  cases v with
  | int i => rfl
  | float f => exact absurd h2 (by simp [Value.isFloat])
  | null => simp [Value.asFloat] at h
  | str s => simp [Value.asFloat] at h
  | bool b => simp [Value.asFloat] at h
  | nestedT c r => simp [Value.asFloat] at h

theorem aggSumLoop_spec :
    ∀ (l : List Value), (∀ v ∈ l, v.isNull = true ∨ v.asFloat.isSome = true) →
    ∀ (sum : Rat) (hasInt : Bool) (intSum : Int) (any : Bool), ∃ sum' intSum',
      aggSumLoop l (sum, hasInt, intSum, any) =
        .ok (sum', hasInt && l.all (fun v => v.isNull || v.isInt),
             intSum', any || l.any (fun v => !v.isNull)) := by
  intro l
  induction l with
  | nil =>
    intro _ sum hasInt intSum any
    exact ⟨sum, intSum, by simp [aggSumLoop]⟩
  | cons v rest ih =>
    intro h sum hasInt intSum any
    have hrest := fun w hw => h w (List.mem_cons_of_mem _ hw)
    rcases h v (by simp) with hn | hf
    · obtain ⟨s', i', hrec⟩ := ih hrest sum hasInt intSum any
      exact ⟨s', i', by simp [aggSumLoop, hn, hrec]⟩
    · have hnn : v.isNull = false := isNull_false_of_asFloat hf
      obtain ⟨f, hf'⟩ := Option.isSome_iff_exists.mp hf
      by_cases hi : v.isInt = true
      · obtain ⟨s', i', hrec⟩ := ih hrest (sum + f) hasInt (intSum + v.intVal) true
        exact ⟨s', i', by simp [aggSumLoop, hnn, hf', hi, hrec]⟩
      · have hi' : v.isInt = false := by simpa using hi
        obtain ⟨s', i', hrec⟩ := ih hrest (sum + f) false intSum true
        exact ⟨s', i', by simp [aggSumLoop, hnn, hf', hi', hrec]⟩

theorem aggMinLoop_spec :
    ∀ (l : List Value), (∀ v ∈ l, v.isNull = true ∨ v.asFloat.isSome = true) →
    ∀ (mv : Rat) (any : Bool) (isInt : Bool) (mi : Int), ∃ mv' isInt' mi',
      aggMinLoop l (mv, any, isInt, mi) =
        .ok (mv', any || l.any (fun v => !v.isNull), isInt', mi') ∧
      (isInt = false → isInt' = false) ∧
      ((∀ v ∈ l, v.isNull = true ∨ v.isInt = true) → isInt' = isInt) := by
  intro l
  induction l with
  | nil =>
    intro _ mv any isInt mi
    exact ⟨mv, isInt, mi, by simp [aggMinLoop], fun h => h, fun _ => rfl⟩
  | cons v rest ih =>
    intro h mv any isInt mi
    have hrest := fun w hw => h w (List.mem_cons_of_mem _ hw)
    rcases h v (by simp) with hn | hf
    · obtain ⟨mv', isInt', mi', hrec, h1, h2⟩ := ih hrest mv any isInt mi
      refine ⟨mv', isInt', mi', by simp [aggMinLoop, hn, hrec], h1, ?_⟩
      intro hall
      exact h2 (fun w hw => hall w (List.mem_cons_of_mem _ hw))
    · have hnn : v.isNull = false := isNull_false_of_asFloat hf
      obtain ⟨f, hf'⟩ := Option.isSome_iff_exists.mp hf
      by_cases hc : (!any || decide (f < mv)) = true
      · by_cases hi : v.isInt = true
        · obtain ⟨mv', isInt', mi', hrec, h1, h2⟩ := ih hrest f true isInt v.intVal
          refine ⟨mv', isInt', mi', by simp [aggMinLoop, hnn, hf', hc, hi, hrec], h1, ?_⟩
          intro hall
          exact h2 (fun w hw => hall w (List.mem_cons_of_mem _ hw))
        · have hi' : v.isInt = false := by simpa using hi
          obtain ⟨mv', isInt', mi', hrec, h1, _⟩ := ih hrest f true false mi
          refine ⟨mv', isInt', mi', by simp [aggMinLoop, hnn, hf', hc, hi', hrec],
            fun _ => h1 rfl, ?_⟩
          intro hall
          rcases hall v (by simp) with hbad | hbad
          · rw [hbad] at hnn; cases hnn
          · rw [hbad] at hi'; cases hi'
      · have hc' : (!any || decide (f < mv)) = false := by simpa using hc
        obtain ⟨mv', isInt', mi', hrec, h1, h2⟩ := ih hrest mv true isInt mi
        refine ⟨mv', isInt', mi', by simp [aggMinLoop, hnn, hf', hc', hrec], h1, ?_⟩
        intro hall
        exact h2 (fun w hw => hall w (List.mem_cons_of_mem _ hw))

theorem aggMaxLoop_spec :
    ∀ (l : List Value), (∀ v ∈ l, v.isNull = true ∨ v.asFloat.isSome = true) →
    ∀ (mv : Rat) (any : Bool) (isInt : Bool) (mi : Int), ∃ mv' isInt' mi',
      aggMaxLoop l (mv, any, isInt, mi) =
        .ok (mv', any || l.any (fun v => !v.isNull), isInt', mi') ∧
      (isInt = false → isInt' = false) ∧
      ((∀ v ∈ l, v.isNull = true ∨ v.isInt = true) → isInt' = isInt) := by
  intro l
  induction l with
  | nil =>
    intro _ mv any isInt mi
    exact ⟨mv, isInt, mi, by simp [aggMaxLoop], fun h => h, fun _ => rfl⟩
  | cons v rest ih =>
    intro h mv any isInt mi
    have hrest := fun w hw => h w (List.mem_cons_of_mem _ hw)
    rcases h v (by simp) with hn | hf
    · obtain ⟨mv', isInt', mi', hrec, h1, h2⟩ := ih hrest mv any isInt mi
      refine ⟨mv', isInt', mi', by simp [aggMaxLoop, hn, hrec], h1, ?_⟩
      intro hall
      exact h2 (fun w hw => hall w (List.mem_cons_of_mem _ hw))
    · have hnn : v.isNull = false := isNull_false_of_asFloat hf
      obtain ⟨f, hf'⟩ := Option.isSome_iff_exists.mp hf
      by_cases hc : (!any || decide (f > mv)) = true
      · by_cases hi : v.isInt = true
        · obtain ⟨mv', isInt', mi', hrec, h1, h2⟩ := ih hrest f true isInt v.intVal
          refine ⟨mv', isInt', mi', by simp [aggMaxLoop, hnn, hf', hc, hi, hrec], h1, ?_⟩
          intro hall
          exact h2 (fun w hw => hall w (List.mem_cons_of_mem _ hw))
        · have hi' : v.isInt = false := by simpa using hi
          obtain ⟨mv', isInt', mi', hrec, h1, _⟩ := ih hrest f true false mi
          refine ⟨mv', isInt', mi', by simp [aggMaxLoop, hnn, hf', hc, hi', hrec],
            fun _ => h1 rfl, ?_⟩
          intro hall
          rcases hall v (by simp) with hbad | hbad
          · rw [hbad] at hnn; cases hnn
          · rw [hbad] at hi'; cases hi'
      · have hc' : (!any || decide (f > mv)) = false := by simpa using hc
        obtain ⟨mv', isInt', mi', hrec, h1, h2⟩ := ih hrest mv true isInt mi
        refine ⟨mv', isInt', mi', by simp [aggMaxLoop, hnn, hf', hc', hrec], h1, ?_⟩
        intro hall
        exact h2 (fun w hw => hall w (List.mem_cons_of_mem _ hw))

/-- C4 (corrected): over a numeric column, `sum` follows the claimed rule —
Int when every non-null contributor is Int, Float as soon as any Float
contributes — and all three aggregates give null with zero non-null
contributors.  For `min`/`max` only the weaker rules hold: an all-Int column
gives Int and a Float result implies a Float contributor, but (contrary to
the claim) a Float contributor that never becomes the running minimum /
maximum leaves the result Int, because the loop updates its `isInt` flag
only when the running extreme itself is replaced. -/
theorem c4_agg_numeric_types (cname : String) (nested : Table) (idx : Nat)
    (vals : List Value)
    (hidx : nested.colIndex cname = some idx)
    (hvals : vals = nested.rows.map (fun r => getCell r idx))
    (hnum : ∀ v ∈ vals, v.isNull = true ∨ v.asFloat.isSome = true) :
    ((∀ v ∈ vals, v.isNull = true) →
      aggSum [.column cname] nested = .ok .null ∧
      aggMin [.column cname] nested = .ok .null ∧
      aggMax [.column cname] nested = .ok .null) ∧
    ((∃ v ∈ vals, v.isNull = false) → (∀ v ∈ vals, v.isNull = true ∨ v.isInt = true) →
      (∃ k, aggSum [.column cname] nested = .ok (.int k)) ∧
      (∃ k, aggMin [.column cname] nested = .ok (.int k)) ∧
      (∃ k, aggMax [.column cname] nested = .ok (.int k))) ∧
    ((∃ v ∈ vals, v.isFloat = true) →
      (∃ q, aggSum [.column cname] nested = .ok (.float q))) ∧
    ((∀ v ∈ vals, v.isFloat = false) →
      (∀ q, aggMin [.column cname] nested ≠ .ok (.float q)) ∧
      (∀ q, aggMax [.column cname] nested ≠ .ok (.float q))) := by
  have hget : ∀ name, getColValues name [.column cname] nested = .ok vals := by
    intro name
    simp [getColValues, hidx, hvals]
  obtain ⟨s', i', hsum⟩ := aggSumLoop_spec vals hnum 0 true 0 false
  obtain ⟨mv', isInt', mi', hmin, hmin1, hmin2⟩ := aggMinLoop_spec vals hnum 0 false true 0
  obtain ⟨xv', xisInt', xi', hmax, hmax1, hmax2⟩ := aggMaxLoop_spec vals hnum 0 false true 0
  have hsumEq : aggSum [.column cname] nested =
      (do
        let st ← aggSumLoop vals (0, true, 0, false)
        match st with
        | (sum, hasInt, intSum, any) =>
          if !any then .ok .null
          else if hasInt then .ok (.int intSum)
          else .ok (.float sum)) := by
    rw [aggSum, hget "sum"]
    rfl
  have hminEq : aggMin [.column cname] nested =
      (do
        let st ← aggMinLoop vals (0, false, true, 0)
        match st with
        | (minVal, any, isInt, minInt) =>
          if !any then .ok .null
          else if isInt then .ok (.int minInt)
          else .ok (.float minVal)) := by
    rw [aggMin, hget "min"]
    rfl
  have hmaxEq : aggMax [.column cname] nested =
      (do
        let st ← aggMaxLoop vals (0, false, true, 0)
        match st with
        | (maxVal, any, isInt, maxInt) =>
          if !any then .ok .null
          else if isInt then .ok (.int maxInt)
          else .ok (.float maxVal)) := by
    rw [aggMax, hget "max"]
    rfl
  refine ⟨?_, ?_, ?_, ?_⟩
  · intro hall
    have hany : vals.any (fun v => !v.isNull) = false := by
      simp only [List.any_eq_false]
      intro v hv
      simp [hall v hv]
    rw [hsumEq, hsum, hany]
    rw [hminEq, hmin, hany]
    rw [hmaxEq, hmax, hany]
    exact ⟨by simp, by simp, by simp⟩
  · rintro ⟨w, hw, hwnn⟩ hallint
    have hany : vals.any (fun v => !v.isNull) = true := by
      simp only [List.any_eq_true]
      exact ⟨w, hw, by simp [hwnn]⟩
    have hallb : vals.all (fun v => v.isNull || v.isInt) = true := by
      simp only [List.all_eq_true]
      intro v hv
      rcases hallint v hv with h | h <;> simp [h]
    refine ⟨⟨i', ?_⟩, ⟨mi', ?_⟩, ⟨xi', ?_⟩⟩
    · rw [hsumEq, hsum, hany, hallb]
      simp
    · rw [hminEq, hmin, hany, hmin2 hallint]
      simp
    · rw [hmaxEq, hmax, hany, hmax2 hallint]
      simp
  · rintro ⟨w, hw, hwf⟩
    have hwnn : w.isNull = false := isNull_false_of_isFloat hwf
    have hwint : w.isInt = false := isInt_false_of_isFloat hwf
    have hany : vals.any (fun v => !v.isNull) = true := by
      simp only [List.any_eq_true]
      exact ⟨w, hw, by simp [hwnn]⟩
    have hallb : vals.all (fun v => v.isNull || v.isInt) = false := by
      simp only [List.all_eq_false]
      exact ⟨w, hw, by simp [hwnn, hwint]⟩
    refine ⟨s', ?_⟩
    rw [hsumEq, hsum, hany, hallb]
    simp
  · intro hnofloat
    have hallint : ∀ v ∈ vals, v.isNull = true ∨ v.isInt = true := by
      intro v hv
      rcases hnum v hv with h | h
      · exact Or.inl h
      · exact Or.inr (isInt_true_of_numeric_not_float h (hnofloat v hv))
    constructor
    · intro q
      rw [hminEq, hmin, hmin2 hallint]
      cases hany : vals.any (fun v => !v.isNull) <;> simp
    · intro q
      rw [hmaxEq, hmax, hmax2 hallint]
      cases hany : vals.any (fun v => !v.isNull) <;> simp

/-- Witness for C4 at a concrete nested table (the all-null column). -/
theorem c4_agg_numeric_types_witness :
    aggSum [.column "x"] ⟨["x"], [[Value.null], [Value.null]]⟩ = .ok .null ∧
    aggMin [.column "x"] ⟨["x"], [[Value.null], [Value.null]]⟩ = .ok .null ∧
    aggMax [.column "x"] ⟨["x"], [[Value.null], [Value.null]]⟩ = .ok .null :=
  (c4_agg_numeric_types "x" ⟨["x"], [[Value.null], [Value.null]]⟩ 0
    [Value.null, Value.null] rfl rfl (by decide)).1 (by decide)

/-- Counterexample to C4 as stated: `min` over the column `[Int 1, Float 5/2]`
returns the Int 1, although a Float value contributed — the claim demands a
Float result whenever any contributor is Float. -/
theorem c4_agg_numeric_types_counterexample :
    aggMin [.column "x"]
      ⟨["x"], [[Value.int 1], [Value.float ⟨5, 2, by decide, by decide⟩]]⟩
      = .ok (.int 1) ∧
    (Value.int 1).isFloat = false := ⟨rfl, rfl⟩

/-! ## Claims C5 and C10 — group/distinct keys -/

theorem addToGroups_keyStrs (k : String) (kv nr : List Value) :
    ∀ gs : List GroupEntry,
      (addToGroups k kv nr gs).map GroupEntry.keyStr =
        if k ∈ gs.map GroupEntry.keyStr then gs.map GroupEntry.keyStr
        else gs.map GroupEntry.keyStr ++ [k] := by
  intro gs
  induction gs with
  | nil => simp [addToGroups]
  | cons g rest ih =>
    by_cases hg : g.keyStr = k
    · simp [addToGroups, hg]
    · have hgk : ¬ (k = g.keyStr) := fun h => hg h.symm
      by_cases hmem : k ∈ rest.map GroupEntry.keyStr
      · simp [addToGroups, hg, ih, hmem, hgk]
      · simp [addToGroups, hg, ih, hmem, hgk]

theorem firstSeenKeys_congr :
    ∀ (ks : List String) (s1 s2 : List String), (∀ x, x ∈ s1 ↔ x ∈ s2) →
      firstSeenKeys s1 ks = firstSeenKeys s2 ks := by
  intro ks
  induction ks with
  | nil => intro _ _ _; rfl
  | cons k rest ih =>
    intro s1 s2 hs
    by_cases hk : k ∈ s1
    · rw [firstSeenKeys, if_pos hk, firstSeenKeys, if_pos ((hs k).mp hk)]
      exact ih s1 s2 hs
    · rw [firstSeenKeys, if_neg hk, firstSeenKeys, if_neg (fun h => hk ((hs k).mpr h))]
      refine congrArg _ (ih (k :: s1) (k :: s2) ?_)
      intro x
      simp [hs x]

theorem groupRows_keyStrs (gidx nidx : List Nat) :
    ∀ (rows : List (List Value)) (acc : List GroupEntry),
      (groupRows gidx nidx rows acc).map GroupEntry.keyStr =
        acc.map GroupEntry.keyStr ++
          firstSeenKeys (acc.map GroupEntry.keyStr) (rows.map (rowKeyStr gidx)) := by
  intro rows
  induction rows with
  | nil => intro acc; simp [groupRows, firstSeenKeys]
  | cons row rest ih =>
    intro acc
    rw [groupRows, ih]
    rw [addToGroups_keyStrs]
    by_cases hmem : rowKeyStr gidx row ∈ acc.map GroupEntry.keyStr
    · rw [if_pos hmem]
      simp only [List.map_cons]
      rw [firstSeenKeys, if_pos hmem]
    · rw [if_neg hmem]
      simp only [List.map_cons]
      rw [firstSeenKeys, if_neg hmem]
      rw [List.append_assoc]
      refine congrArg _ ?_
      rw [List.singleton_append]
      refine congrArg _ ?_
      refine firstSeenKeys_congr _ _ _ ?_
      intro x
      simp [or_comm]

theorem addToGroups_good {gidx : List Nat} (k : String) (kv nr : List Value)
    (hk : k = String.intercalate "\x00" (kv.map Value.asString))
    (hl : kv.length = gidx.length) :
    ∀ gs : List GroupEntry, (∀ g ∈ gs, GoodEntry gidx g) →
      ∀ g ∈ addToGroups k kv nr gs, GoodEntry gidx g := by
  intro gs
  induction gs with
  | nil =>
    intro _ g hg
    simp [addToGroups] at hg
    subst hg
    exact ⟨hk, hl⟩
  | cons g0 rest ih =>
    intro hgood g hg
    rw [addToGroups] at hg
    by_cases he : g0.keyStr = k
    · rw [if_pos he] at hg
      rcases List.mem_cons.mp hg with h | h
      · subst h
        exact hgood g0 (by simp)
      · exact hgood g (List.mem_cons_of_mem _ h)
    · rw [if_neg he] at hg
      rcases List.mem_cons.mp hg with h | h
      · subst h
        exact hgood g (by simp)
      · exact ih (fun g' hg' => hgood g' (List.mem_cons_of_mem _ hg')) g h

theorem groupRows_good (gidx nidx : List Nat) :
    ∀ (rows : List (List Value)) (acc : List GroupEntry),
      (∀ g ∈ acc, GoodEntry gidx g) →
      ∀ g ∈ groupRows gidx nidx rows acc, GoodEntry gidx g := by
  intro rows
  induction rows with
  | nil => intro acc hacc g hg; exact hacc g hg
  | cons row rest ih =>
    intro acc hacc g hg
    rw [groupRows] at hg
    refine ih _ ?_ g hg
    refine addToGroups_good _ _ _ ?_ (by simp) acc hacc
    rw [rowKeyStr, List.map_map]
    rfl

theorem map_range_getD (kv : List Value) (f : Value → String) :
    (List.range kv.length).map (fun i => f (kv.getD i Value.null)) = kv.map f := by
  apply List.ext_getElem
  · simp
  · intro i h1 h2
    simp only [List.getElem_map, List.getElem_range]
    have hi : i < kv.length := by simpa using h2
    rw [List.getD_eq_getElem kv Value.null hi]

theorem rowKeyStr_append (kv : List Value) (x : Value) :
    rowKeyStr (List.range kv.length) (kv ++ [x]) =
      String.intercalate "\x00" (kv.map Value.asString) := by
  rw [rowKeyStr]
  refine congrArg _ ?_
  have h : ∀ i ∈ List.range kv.length,
      (getCell (kv ++ [x]) i).asString =
        (fun j => Value.asString (kv.getD j Value.null)) i := by
    intro i hi
    rw [List.mem_range] at hi
    rw [getCell, List.getD_append _ _ _ _ hi]
  exact (List.map_congr_left h).trans (map_range_getD kv Value.asString)

/-- C5 (corrected): `group K` produces one output row per distinct *string
rendering* of the key tuple (values joined by `"\x00"`), in first-seen
order — not one row per distinct value tuple: key tuples whose renderings
coincide are merged, as the counterexample shows. -/
theorem c5_group_row_count (cols : List String) (nm : String) (t u : Table)
    (gidx : List Nat)
    (hr : resolveIndices cols t "group" = .ok gidx)
    (hg : execGroup cols nm t = .ok u) :
    u.rows.map (fun r => rowKeyStr (List.range cols.length) r)
      = firstSeenKeys [] (t.rows.map (rowKeyStr gidx)) ∧
    u.rows.length = (firstSeenKeys [] (t.rows.map (rowKeyStr gidx))).length := by
  rw [execGroup, hr] at hg
  simp only [except_bind_ok] at hg
  cases hg
  have hgood := groupRows_good gidx
    ((complementCols t gidx).map (fun p => p.1)) t.rows [] (by intro g hg; cases hg)
  have hlen := resolveIndices_length hr
  have hkeys := groupRows_keyStrs gidx
    ((complementCols t gidx).map (fun p => p.1)) t.rows []
  simp only [List.map_nil, List.nil_append] at hkeys
  constructor
  · rw [List.map_map]
    refine Eq.trans (List.map_congr_left ?_) hkeys
    intro g hg
    obtain ⟨hk, hl⟩ := hgood g hg
    have hcl : cols.length = g.keyVals.length := by rw [hl, hlen]
    show rowKeyStr (List.range cols.length) (g.keyVals ++ [_]) = _
    rw [hcl, rowKeyStr_append, ← hk]
  · have hlen2 := congrArg List.length hkeys
    simp only [List.length_map] at hlen2
    simpa using hlen2

/-- Witness for C5 at a concrete table: grouping `[1, 1, 2]` by its only
column yields one row per distinct key string, in first-seen order. -/
theorem c5_group_row_count_witness :
    (⟨["a", "g"], [[Value.int 1, Value.nestedT [] [[], []]],
        [Value.int 2, Value.nestedT [] [[]]]]⟩ : Table).rows.map
        (fun r => rowKeyStr (List.range (["a"] : List String).length) r)
      = firstSeenKeys []
          ((⟨["a"], [[Value.int 1], [Value.int 1], [Value.int 2]]⟩ : Table).rows.map
            (rowKeyStr [0])) :=
  (c5_group_row_count ["a"] "g"
    ⟨["a"], [[Value.int 1], [Value.int 1], [Value.int 2]]⟩
    ⟨["a", "g"], [[Value.int 1, Value.nestedT [] [[], []]],
      [Value.int 2, Value.nestedT [] [[]]]]⟩ [0] rfl rfl).1

/-- Counterexample to C5 as stated: the table with rows `[Int 1]` and
`[Str "1"]` has two distinct key tuples for column `a`, but `group a`
produces a single output row, because both tuples render to the key string
`"1"`. -/
theorem c5_group_row_count_counterexample :
    execGroup ["a"] "grouped" ⟨["a"], [[Value.int 1], [Value.str "1"]]⟩
      = .ok ⟨["a", "grouped"], [[Value.int 1, Value.nestedT [] [[], []]]]⟩ ∧
    [Value.int 1] ≠ [Value.str "1"] :=
  ⟨rfl, by simp⟩

theorem distinctLoop_keys (idxs : List Nat) :
    ∀ (l : List (List Value)) (seen : List String),
      (distinctLoop idxs seen l).map (distinctKey idxs) =
        firstSeenKeys seen (l.map (distinctKey idxs)) := by
  intro l
  induction l with
  | nil => intro seen; rfl
  | cons row rest ih =>
    intro seen
    rw [distinctLoop, List.map_cons, firstSeenKeys]
    by_cases hmem : distinctKey idxs row ∈ seen
    · rw [if_pos hmem, if_pos hmem, ih]
    · rw [if_neg hmem, if_neg hmem, List.map_cons, ih]

/-- C10 (confirmed): `group` and `distinct` decide key-tuple equality via
the rendered strings joined by `"\x00"`: `distinct` keeps exactly the first
row per distinct key string, and rows whose key values have identical
string forms but different types — `Int 1` vs `Str "1"`, `Bool true` vs
`Str "true"` — are treated as duplicates by `distinct` and fall into the
same `group` partition. -/
theorem c10_string_key_equality (t : Table) (cols : List String) (idxs : List Nat)
    (hne : cols ≠ []) (hidx : resolveIndicesOpt cols t = some idxs) :
    (execDistinct cols t).rows.map (distinctKey idxs)
      = firstSeenKeys [] (t.rows.map (distinctKey idxs)) ∧
    execDistinct ["a"] ⟨["a"], [[Value.int 1], [Value.str "1"]]⟩
      = ⟨["a"], [[Value.int 1]]⟩ ∧
    execDistinct ["a"] ⟨["a"], [[Value.bool true], [Value.str "true"]]⟩
      = ⟨["a"], [[Value.bool true]]⟩ ∧
    execGroup ["a"] "grouped" ⟨["a"], [[Value.bool true], [Value.str "true"]]⟩
      = .ok ⟨["a", "grouped"], [[Value.bool true, Value.nestedT [] [[], []]]]⟩ := by
  refine ⟨?_, rfl, rfl, rfl⟩
  rw [execDistinct, if_neg (by simpa using hne), hidx]
  exact distinctLoop_keys idxs t.rows []

/-- Witness for C10 at a concrete table. -/
theorem c10_string_key_equality_witness :
    (execDistinct ["a"] ⟨["a"], [[Value.int 1], [Value.int 1], [Value.int 2]]⟩).rows.map
        (distinctKey [0])
      = firstSeenKeys []
          ((⟨["a"], [[Value.int 1], [Value.int 1], [Value.int 2]]⟩ : Table).rows.map
            (distinctKey [0])) :=
  (c10_string_key_equality ⟨["a"], [[Value.int 1], [Value.int 1], [Value.int 2]]⟩
    ["a"] [0] (by simp) rfl).1

/-! ## Claim C3 — sorting and null placement -/

theorem stringsCompare_neg (a b : String) : stringsCompare b a = -stringsCompare a b := by
  rw [stringsCompare, stringsCompare]
  rcases lt_trichotomy a b with h | h | h
  · simp [h, lt_asymm h]
  · subst h
    simp [lt_irrefl]
  · simp [h, lt_asymm h]

theorem compareValues_neg (a b : Value) : compareValues b a = -compareValues a b := by
  rw [compareValues, compareValues]
  cases ha : a.isNull <;> cases hb : b.isNull <;>
    simp only [ha, hb, Bool.and_self, Bool.and_false, Bool.false_and, Bool.and_true,
      Bool.true_and, Bool.false_eq_true, if_false, if_true, ite_false, ite_true, neg_neg]
  case true.true => rfl
  cases haf : a.asFloat <;> cases hbf : b.asFloat <;> simp only [haf, hbf]
  · exact stringsCompare_neg _ _
  · exact stringsCompare_neg _ _
  · exact stringsCompare_neg _ _
  · rename_i af bf
    rcases lt_trichotomy af bf with h | h | h
    · simp [h, lt_asymm h]
    · subst h
      simp [lt_irrefl]
    · simp [h, lt_asymm h]

theorem compareValues_null_lt {a b : Value} (ha : a.isNull = true) (hb : b.isNull = false) :
    compareValues a b = 1 := by
  rw [compareValues, ha, hb]
  rfl

theorem compareValues_lt_null {a b : Value} (ha : a.isNull = false) (hb : b.isNull = true) :
    compareValues a b = -1 := by
  rw [compareValues, ha, hb]
  rfl

theorem sortLess_asymm (asc : Bool) :
    ∀ (idxs : List Nat) (a b : List Value),
      sortLess idxs asc a b = true → sortLess idxs asc b a = false := by
  intro idxs
  induction idxs with
  | nil => intro a b h; cases h
  | cons i rest ih =>
    intro a b h
    have hneg := compareValues_neg (getCell a i) (getCell b i)
    rw [sortLess] at h ⊢
    by_cases hc : compareValues (getCell a i) (getCell b i) = 0
    · rw [if_neg (by simp [hc])] at h
      rw [hneg, hc]
      rw [if_neg (by simp)]
      exact ih a b h
    · rw [if_pos (by simpa using hc)] at h
      rw [hneg]
      rw [if_pos (by simpa using hc)]
      cases asc <;> simp_all <;> omega

theorem rowLe_total (idxs : List Nat) (asc : Bool) :
    ∀ a b, rowLe idxs asc a b ∨ rowLe idxs asc b a := by
  intro a b
  cases h : sortLess idxs asc b a
  · exact Or.inl h
  · exact Or.inr (sortLess_asymm asc idxs b a h)

theorem sorted_orderedInsert_local {α : Type} (r : α → α → Prop) [DecidableRel r]
    (S : List α) (total : ∀ x y, r x y ∨ r y x)
    (trans : ∀ x ∈ S, ∀ y ∈ S, ∀ z ∈ S, r x y → r y z → r x z) :
    ∀ (l : List α) (a : α), a ∈ S → (∀ x ∈ l, x ∈ S) → l.Sorted r →
      (l.orderedInsert r a).Sorted r := by
  intro l
  induction l with
  | nil =>
    intro a _ _ _
    simp [List.orderedInsert]
  | cons b tl ih =>
    intro a ha hsub hs
    rw [List.orderedInsert]
    by_cases hab : r a b
    · rw [if_pos hab, List.sorted_cons]
      refine ⟨?_, hs⟩
      intro y hy
      rcases List.mem_cons.mp hy with h | h
      · exact h ▸ hab
      · have hby := (List.sorted_cons.mp hs).1 y h
        exact trans a ha b (hsub b (by simp)) y (hsub y (List.mem_cons_of_mem _ h)) hab hby
    · rw [if_neg hab, List.sorted_cons]
      have hba : r b a := (total a b).resolve_left hab
      constructor
      · intro y hy
        rcases (List.mem_orderedInsert r).mp hy with h | h
        · exact h ▸ hba
        · exact (List.sorted_cons.mp hs).1 y h
      · exact ih a ha (fun x hx => hsub x (List.mem_cons_of_mem _ hx))
          (List.sorted_cons.mp hs).2

theorem sorted_insertionSort_local {α : Type} (r : α → α → Prop) [DecidableRel r]
    (total : ∀ x y, r x y ∨ r y x) (l : List α) :
    (∀ x ∈ l, ∀ y ∈ l, ∀ z ∈ l, r x y → r y z → r x z) →
      (l.insertionSort r).Sorted r := by
  induction l with
  | nil => exact fun _ => List.sorted_nil
  | cons a tl ih =>
    intro trans
    rw [List.insertionSort]
    refine sorted_orderedInsert_local r (a :: tl) total trans (tl.insertionSort r) a
      (by simp) ?_ ?_
    · intro x hx
      exact List.mem_cons_of_mem _ ((List.mem_insertionSort r).mp hx)
    · exact ih (fun x hx y hy z hz => trans x (List.mem_cons_of_mem _ hx) y
        (List.mem_cons_of_mem _ hy) z (List.mem_cons_of_mem _ hz))

theorem sortLess_tie_skip (asc : Bool) (a b : List Value) :
    ∀ (pre rest : List Nat),
      (∀ m ∈ pre, compareValues (getCell a m) (getCell b m) = 0) →
      sortLess (pre ++ rest) asc a b = sortLess rest asc a b := by
  intro pre
  induction pre with
  | nil => intro rest _; rfl
  | cons m pre' ih =>
    intro rest h
    have h0 : compareValues (getCell a m) (getCell b m) = 0 := h m (by simp)
    rw [List.cons_append, sortLess, h0]
    rw [if_neg (by simp)]
    exact ih rest (fun m' hm' => h m' (List.mem_cons_of_mem _ hm'))

/-- C3 (corrected): `sorta`/`sortd` are a multi-key sort by the comparator
whose first non-zero key comparison decides, and the output is a
permutation of the input, pairwise ordered by the induced `≤`.  For rows
that tie on all earlier sort keys, rows with a null value in the next key
come after all rows with a non-null value there in ASCENDING order, but
BEFORE them in DESCENDING order: the descending direction flips the whole
comparison, null placement included, contrary to the claimed constant
nulls-last policy.  (The transitivity hypothesis restricts the statement to
inputs on which Go's `sort.SliceStable` contract is met; it holds for any
single-typed key columns and is discharged by computation in the
witness.) -/
theorem c3_sort_null_placement (t u : Table) (cols : List String) (asc : Bool)
    (idxs : List Nat)
    (hr : resolveIndices cols t "sort" = .ok idxs)
    (hs : execSort cols asc t = .ok u)
    (htrans : ∀ a ∈ t.rows, ∀ b ∈ t.rows, ∀ c ∈ t.rows,
      rowLe idxs asc a b → rowLe idxs asc b c → rowLe idxs asc a c) :
    u.columns = t.columns ∧
    u.rows.Perm t.rows ∧
    List.Pairwise (rowLe idxs asc) u.rows ∧
    (∀ pre k post, idxs = pre ++ k :: post →
      ∀ (i j : Nat) (ra rb : List Value), i < j →
      u.rows.get? i = some ra → u.rows.get? j = some rb →
      (∀ m ∈ pre, compareValues (getCell ra m) (getCell rb m) = 0) →
      ((asc = true → (getCell ra k).isNull = true → (getCell rb k).isNull = true) ∧
       (asc = false → (getCell rb k).isNull = true → (getCell ra k).isNull = true))) := by
  rw [execSort, hr] at hs
  simp only [except_bind_ok] at hs
  cases hs
  have hsorted : (t.rows.insertionSort (rowLe idxs asc)).Sorted (rowLe idxs asc) :=
    sorted_insertionSort_local (rowLe idxs asc) (rowLe_total idxs asc) t.rows htrans
  refine ⟨rfl, List.perm_insertionSort _ _, hsorted, ?_⟩
  intro pre k post hsplit i j ra rb hij hra hrb hties
  obtain ⟨hi, hra'⟩ := List.get?_eq_some.mp hra
  obtain ⟨hj, hrb'⟩ := List.get?_eq_some.mp hrb
  have hpair : rowLe idxs asc ra rb := by
    rw [← hra', ← hrb']
    exact List.pairwise_iff_get.mp hsorted ⟨i, hi⟩ ⟨j, hj⟩ hij
  have hpair' : sortLess idxs asc rb ra = false := hpair
  have hties' : ∀ m ∈ pre, compareValues (getCell rb m) (getCell ra m) = 0 := by
    intro m hm
    rw [compareValues_neg, hties m hm]
    rfl
  constructor
  · intro hasc hnulli
    by_contra hnullj
    rw [Bool.not_eq_true] at hnullj
    have hlt : sortLess idxs asc rb ra = true := by
      rw [hsplit, sortLess_tie_skip asc _ _ pre _ hties', sortLess,
        compareValues_lt_null hnullj hnulli]
      rw [if_pos (by simp)]
      rw [hasc]
      rfl
    rw [hpair'] at hlt
    cases hlt
  · intro hdesc hnullj
    by_contra hnulli
    rw [Bool.not_eq_true] at hnulli
    have hlt : sortLess idxs asc rb ra = true := by
      rw [hsplit, sortLess_tie_skip asc _ _ pre _ hties', sortLess,
        compareValues_null_lt hnullj hnulli]
      rw [if_pos (by simp)]
      rw [hdesc]
      rfl
    rw [hpair'] at hlt
    cases hlt

/-- Witness for C3 at a concrete table: ascending sort of `[3, null, 1]`. -/
theorem c3_sort_null_placement_witness :
    List.Pairwise (rowLe [0] true)
      ((⟨["a"], [[Value.int 1], [Value.int 3], [Value.null]]⟩ : Table)).rows :=
  (c3_sort_null_placement ⟨["a"], [[Value.int 3], [Value.null], [Value.int 1]]⟩
    ⟨["a"], [[Value.int 1], [Value.int 3], [Value.null]]⟩ ["a"] true [0]
    rfl rfl (by decide)).2.2.1

/-- Counterexample to C3 as stated: sorting `[1, null]` DESCENDING places
the null row first, not last — the output is `[null, 1]`, while the claim
requires `[1, null]`. -/
theorem c3_sort_null_placement_counterexample :
    execSort ["a"] false ⟨["a"], [[Value.int 1], [Value.null]]⟩
      = .ok ⟨["a"], [[Value.null], [Value.int 1]]⟩ ∧
    ([[Value.null], [Value.int 1]] : List (List Value))
      ≠ [[Value.int 1], [Value.null]] :=
  ⟨rfl, by simp⟩

/-! ## Claim C9 — preservation of the row-width invariant -/

theorem filterRows_subset {fuel : Nat} {e : Expr} {t : Table} :
    ∀ {l res : List (List Value)}, filterRows fuel e t l = .ok res →
      ∀ r ∈ res, r ∈ l := by
  intro l
  induction l with
  | nil =>
    intro res h r hr
    rw [filterRows] at h
    cases h
    cases hr
  | cons row rest ih =>
    intro res h r hr
    rw [filterRows] at h
    cases heval : Eval fuel e ⟨t, row⟩ <;> simp only [heval] at h
    · cases h
    · rename_i v
      cases hvb : v.asBool <;> simp only [hvb] at h
      · cases h
      · rename_i b
        cases hrest : filterRows fuel e t rest <;> simp only [hrest] at h <;>
          simp at h
        rename_i res'
        subst h
        cases b with
        | false => exact List.mem_cons_of_mem _ (ih hrest r (by simpa using hr))
        | true =>
          rcases List.mem_cons.mp (by simpa using hr) with h' | h'
          · exact h' ▸ List.mem_cons_self _ _
          · exact List.mem_cons_of_mem _ (ih hrest r h')

theorem distinctLoop_subset (idxs : List Nat) :
    ∀ (l : List (List Value)) (seen : List String),
      ∀ r ∈ distinctLoop idxs seen l, r ∈ l := by
  intro l
  induction l with
  | nil => intro seen r hr; cases hr
  | cons row rest ih =>
    intro seen r hr
    rw [distinctLoop] at hr
    by_cases hmem : distinctKey idxs row ∈ seen
    · rw [if_pos hmem] at hr
      exact List.mem_cons_of_mem _ (ih seen r hr)
    · rw [if_neg hmem] at hr
      rcases List.mem_cons.mp hr with h' | h'
      · exact h' ▸ List.mem_cons_self _ _
      · exact List.mem_cons_of_mem _ (ih _ r h')

theorem goCopyPad_length (n : Nat) (src : List Value) :
    (goCopyPad n src).length = n := by
  simp [goCopyPad]
  omega

theorem applyAssigns_length {fuel : Nat} {t : Table} {row : List Value} :
    ∀ {assigns : List Assignment} {targets : List Nat} {vals res : List Value},
      applyAssigns fuel t row assigns targets vals = .ok res →
      res.length = vals.length := by
  intro assigns
  induction assigns with
  | nil =>
    intro targets vals res h
    rw [applyAssigns] at h
    cases h
    rfl
  | cons a rest ih =>
    intro targets vals res h
    cases targets with
    | nil => rw [applyAssigns] at h; cases h
    | cons i trest =>
      rw [applyAssigns] at h
      cases heval : Eval fuel a.expr ⟨t, row⟩ <;> rw [heval] at h
      · cases h
      · rw [ih h, List.length_set]

theorem transformRows_wf {fuel : Nat} {assigns : List Assignment}
    {targets : List Nat} {n : Nat} {t : Table} :
    ∀ {l res : List (List Value)},
      transformRows fuel assigns targets n t l = .ok res →
      ∀ r ∈ res, r.length = n := by
  intro l
  induction l with
  | nil =>
    intro res h r hr
    rw [transformRows] at h
    cases h
    cases hr
  | cons row rest ih =>
    intro res h r hr
    rw [transformRows] at h
    cases happ : applyAssigns fuel t row assigns targets (goCopyPad n row) <;>
      rw [happ] at h <;> simp at h
    cases hrest : transformRows fuel assigns targets n t rest <;> rw [hrest] at h <;>
      simp at h
    subst h
    rcases List.mem_cons.mp hr with h' | h'
    · rw [h']
      rw [applyAssigns_length happ, goCopyPad_length]
    · exact ih hrest r h'

theorem applyAggAssigns_length {nested : Table} :
    ∀ {assigns : List Assignment} {targets : List Nat} {vals res : List Value},
      applyAggAssigns nested assigns targets vals = .ok res →
      res.length = vals.length := by
  intro assigns
  induction assigns with
  | nil =>
    intro targets vals res h
    rw [applyAggAssigns] at h
    cases h
    rfl
  | cons a rest ih =>
    intro targets vals res h
    cases targets with
    | nil => rw [applyAggAssigns] at h; cases h
    | cons i trest =>
      rw [applyAggAssigns] at h
      cases heval : EvalAggregate a.expr nested <;> rw [heval] at h
      · cases h
      · rw [ih h, List.length_set]

theorem reduceRows_wf {assigns : List Assignment} {targets : List Nat} {n nestedIdx : Nat} :
    ∀ {l res : List (List Value)},
      reduceRows assigns targets n nestedIdx l = .ok res →
      ∀ r ∈ res, r.length = n := by
  intro l
  induction l with
  | nil =>
    intro res h r hr
    rw [reduceRows] at h
    cases h
    cases hr
  | cons row rest ih =>
    intro res h r hr
    rw [reduceRows] at h
    cases hcell : getCell row nestedIdx <;> simp only [hcell] at h <;> try cases h
    rename_i ncols nrows
    cases happ : applyAggAssigns ⟨ncols, nrows⟩ assigns targets (goCopyPad n row) <;>
      rw [happ] at h <;> simp at h
    cases hrest : reduceRows assigns targets n nestedIdx rest <;> rw [hrest] at h <;>
      simp at h
    subst h
    rcases List.mem_cons.mp hr with h' | h'
    · rw [h']
      rw [applyAggAssigns_length happ, goCopyPad_length]
    · exact ih hrest r h'

theorem renameFold_length :
    ∀ {pairs : List (String × String)} {cols nc : List String},
      renameFold pairs cols = .ok nc → nc.length = cols.length := by
  intro pairs
  induction pairs with
  | nil =>
    intro cols nc h
    rw [renameFold] at h
    cases h
    rfl
  | cons p rest ih =>
    intro cols nc h
    obtain ⟨old, nw⟩ := p
    rw [renameFold] at h
    cases hf : cols.findIdx? (fun c => c == old) <;> rw [hf] at h
    · cases h
    · rw [ih h, List.length_set]

theorem addToGroups_nested_good {nidx : List Nat} (k : String) (kv nrow : List Value)
    (hn : nrow.length = nidx.length) :
    ∀ gs : List GroupEntry, (∀ g ∈ gs, NestedGood nidx g) →
      ∀ g ∈ addToGroups k kv nrow gs, NestedGood nidx g := by
  intro gs
  induction gs with
  | nil =>
    intro _ g hg
    simp [addToGroups] at hg
    subst hg
    intro nr hnr
    simp at hnr
    rw [hnr, hn]
  | cons g0 rest ih =>
    intro hgood g hg
    rw [addToGroups] at hg
    by_cases he : g0.keyStr = k
    · rw [if_pos he] at hg
      rcases List.mem_cons.mp hg with h | h
      · subst h
        intro nr hnr
        simp only at hnr
        rcases List.mem_append.mp hnr with h' | h'
        · exact hgood g0 (by simp) nr h'
        · rw [List.mem_singleton.mp h', hn]
      · exact hgood g (List.mem_cons_of_mem _ h)
    · rw [if_neg he] at hg
      rcases List.mem_cons.mp hg with h | h
      · subst h
        exact hgood g (by simp)
      · exact ih (fun g' hg' => hgood g' (List.mem_cons_of_mem _ hg')) g h

theorem groupRows_nested_good (gidx nidx : List Nat) :
    ∀ (rows : List (List Value)) (acc : List GroupEntry),
      (∀ g ∈ acc, NestedGood nidx g) →
      ∀ g ∈ groupRows gidx nidx rows acc, NestedGood nidx g := by
  intro rows
  induction rows with
  | nil => intro acc hacc g hg; exact hacc g hg
  | cons row rest ih =>
    intro acc hacc g hg
    rw [groupRows] at hg
    refine ih _ ?_ g hg
    exact addToGroups_nested_good _ _ _ (by simp) acc hacc

/-- C9 (confirmed): every pipeline operation maps a table satisfying the
row-width invariant to a table satisfying it, and the nested sub-tables
produced by `group` satisfy it as well. -/
theorem c9_row_width_invariant (t : Table) (hwf : t.Wf) :
    (∀ n, (execHead n t).Wf) ∧
    (∀ n, (execTail n t).Wf) ∧
    (∀ cols asc u, execSort cols asc t = .ok u → u.Wf) ∧
    (∀ cols u, execSelect cols t = .ok u → u.Wf) ∧
    (∀ fuel e u, execFilter fuel e t = .ok u → u.Wf) ∧
    (∀ cols nm u, execGroup cols nm t = .ok u → u.Wf ∧
      ∀ r ∈ u.rows, ∀ nc nr, r.getLast? = some (Value.nestedT nc nr) →
        Table.Wf ⟨nc, nr⟩) ∧
    (∀ fuel assigns u, execTransform fuel assigns t = .ok u → u.Wf) ∧
    (∀ assigns nm u, execReduce assigns nm t = .ok u → u.Wf) ∧
    (execCount t).Wf ∧
    (∀ cols, (execDistinct cols t).Wf) ∧
    (∀ pairs u, execRename pairs t = .ok u → u.Wf) ∧
    (∀ cols u, execRemove cols t = .ok u → u.Wf) := by
  refine ⟨?_, ?_, ?_, ?_, ?_, ?_, ?_, ?_, ?_, ?_, ?_, ?_⟩
  · intro n r hr
    exact hwf r (List.take_subset n t.rows hr)
  · intro n r hr
    exact hwf r (List.drop_subset _ t.rows hr)
  · intro cols asc u hu
    rw [execSort] at hu
    cases hidx : resolveIndices cols t "sort" <;> rw [hidx] at hu <;> simp at hu
    subst hu
    intro r hr
    exact hwf r ((List.perm_insertionSort _ _).subset hr)
  · intro cols u hu
    rw [execSelect] at hu
    cases hidx : resolveIndices cols t "select" <;> rw [hidx] at hu <;> simp at hu
    subst hu
    intro r hr
    simp only [List.mem_map] at hr
    obtain ⟨row, _, rfl⟩ := hr
    simp [resolveIndices_length hidx]
  · intro fuel e u hu
    rw [execFilter] at hu
    cases hrows : filterRows fuel e t t.rows <;> rw [hrows] at hu <;> simp at hu
    subst hu
    intro r hr
    exact hwf r (filterRows_subset hrows r hr)
  · intro cols nm u hu
    rw [execGroup] at hu
    cases hidx : resolveIndices cols t "group" <;> rw [hidx] at hu <;> simp at hu
    subst hu
    rename_i gidx
    have hlen := resolveIndices_length hidx
    have hgood := groupRows_good gidx ((complementCols t gidx).map (fun p => p.1))
      t.rows [] (by intro g hg; cases hg)
    have hnested := groupRows_nested_good gidx
      ((complementCols t gidx).map (fun p => p.1)) t.rows [] (by intro g hg; cases hg)
    constructor
    · intro r hr
      simp only [List.mem_map] at hr
      obtain ⟨g, hg, rfl⟩ := hr
      obtain ⟨_, hkv⟩ := hgood g hg
      simp [hkv, hlen]
    · intro r hr nc nr hlast
      simp only [List.mem_map] at hr
      obtain ⟨g, hg, rfl⟩ := hr
      rw [List.getLast?_concat] at hlast
      simp only [Option.some.injEq, Value.nestedT.injEq] at hlast
      obtain ⟨hnc, hnr⟩ := hlast
      intro row hrow
      rw [← hnr] at hrow
      rw [← hnc]
      simpa using hnested g hg row hrow
  · intro fuel assigns u hu
    rw [execTransform] at hu
    simp only at hu
    cases hrows : transformRows fuel assigns
        (computeLayout t.columns assigns).2 (computeLayout t.columns assigns).1.length t
        t.rows <;> rw [hrows] at hu <;> simp at hu
    subst hu
    intro r hr
    exact transformRows_wf hrows r hr
  · intro assigns nm u hu
    rw [execReduce] at hu
    cases hidx : t.colIndex nm <;> rw [hidx] at hu
    · cases hu
    · simp only at hu
      cases hrows : reduceRows assigns (computeLayout t.columns assigns).2
          (computeLayout t.columns assigns).1.length _ t.rows <;> rw [hrows] at hu <;>
        simp at hu
      subst hu
      intro r hr
      exact reduceRows_wf hrows r hr
  · intro r hr
    simp [execCount] at hr
    simp [execCount, hr]
  · intro cols r hr
    rw [execDistinct] at hr ⊢
    by_cases hemp : cols.isEmpty
    · rw [if_pos hemp] at hr ⊢
      exact hwf r (distinctLoop_subset [] t.rows [] r hr)
    · rw [if_neg hemp] at hr ⊢
      cases hidx : resolveIndicesOpt cols t <;> simp only [hidx] at hr ⊢
      · cases hr
      · exact hwf r (distinctLoop_subset _ t.rows [] r hr)
  · intro pairs u hu
    rw [execRename] at hu
    cases hfold : renameFold pairs t.columns <;> rw [hfold] at hu <;> simp at hu
    subst hu
    intro r hr
    rw [renameFold_length hfold]
    exact hwf r hr
  · intro cols u hu
    rw [execRemove] at hu
    cases hchk : checkAllPresent cols t <;> rw [hchk] at hu <;> simp at hu
    subst hu
    intro r hr
    simp only [List.mem_map] at hr
    obtain ⟨row, _, rfl⟩ := hr
    simp

/-- Witness for C9 at a concrete table. -/
theorem c9_row_width_invariant_witness :
    (execHead 2 ⟨["a", "b"], [[Value.int 1, Value.str "x"],
      [Value.null, Value.bool true]]⟩).Wf :=
  (c9_row_width_invariant ⟨["a", "b"], [[Value.int 1, Value.str "x"],
    [Value.null, Value.bool true]]⟩ (by decide)).1 2

/-! ## Claim C2 — binding of the trailing `is [not] null` -/

/-- C2 (corrected): for every binary operator, the token stream
`IDENT op IDENT is null` parses with the `IsNull` node attached to the
RIGHTMOST operand, producing `a op (IsNull b)` — not `IsNull (a op b)` as
claimed.  The trailing `is [not] null` check at the end of `parseExprPrec`
also runs inside the recursive call that parses the right operand, which is
the activation that reaches the `is` token first. -/
theorem c2_is_null_binds_rightmost (a b : String) (tt : TokenType) (op : String)
    (h : (tt, op) ∈ ([(.tOr, "or"), (.tAnd, "and"), (.tEq, "=="), (.tNeq, "!="),
      (.tLt, "<"), (.tGt, ">"), (.tLte, "<="), (.tGte, ">="), (.tPlus, "+"),
      (.tMinus, "-"), (.tStar, "*"), (.tSlash, "/")] : List (TokenType × String))) :
    parseExpr 9 [⟨.tIdent, a, 0⟩, ⟨tt, op, 2⟩, ⟨.tIdent, b, 4⟩, ⟨.tIs, "is", 6⟩,
      ⟨.tNull, "null", 9⟩]
      = .ok (.binary op (.column a) (.isNullE (.column b) false), []) := by
  cases tt <;>
    simp only [List.mem_cons, List.not_mem_nil, or_false, false_or,
      Prod.mk.injEq, false_and, true_and, and_false, reduceCtorEq] at h
  all_goals (subst h; rfl)

/-- Witness for C2 at a concrete token stream (`a + b is null`). -/
theorem c2_is_null_binds_rightmost_witness :
    parseExpr 9 [⟨.tIdent, "a", 0⟩, ⟨.tPlus, "+", 2⟩, ⟨.tIdent, "b", 4⟩,
      ⟨.tIs, "is", 6⟩, ⟨.tNull, "null", 9⟩]
      = .ok (.binary "+" (.column "a") (.isNullE (.column "b") false), []) :=
  c2_is_null_binds_rightmost "a" "b" .tPlus "+" (by decide)

/-- Counterexample to C2 as stated: `a + b is null` parses to
`a + (IsNull b)`, which is not the claimed `IsNull (a + b)`. -/
theorem c2_is_null_binds_rightmost_counterexample :
    parseExpr 9 [⟨.tIdent, "a", 0⟩, ⟨.tPlus, "+", 2⟩, ⟨.tIdent, "b", 4⟩,
      ⟨.tIs, "is", 6⟩, ⟨.tNull, "null", 9⟩]
      = .ok (.binary "+" (.column "a") (.isNullE (.column "b") false), []) ∧
    (Expr.binary "+" (.column "a") (.isNullE (.column "b") false)
      ≠ .isNullE (.binary "+" (.column "a") (.column "b")) false) :=
  ⟨rfl, fun h => Expr.noConfusion h⟩

end DQ

